import Mathlib

/-!
# The in-memory data store of the event platform (`src/dataStore.js`)

A shallow embedding of the `DataStore` class and proofs about it.

Modelling conventions.

* A JavaScript number is an integer (`Int`): `num n` is the Number whose value
  is `n`.  Every integer up to `2 ^ 53` in magnitude is one; a larger one is
  when `roundNat` leaves it as it is.  A result of `parseInt` that is `NaN` or
  an infinity is represented by `none`: no value of the model is equal to
  either.
* Values passed as identifiers are primitives (`Prim`).  Values stored in a
  record are `Value`s: a primitive, a `Date` made by the store (its clock
  reading), an array of primitives (the `participants` of an event), or
  `ref r`, any other object, which the store never looks into and which is
  identified by its reference `r`.
* A record is its list of own properties (`Obj`), read by key with `getProp`
  and written with `setProp`; an absent key reads as `undefined`.  The store
  reads and writes properties by key only, so the order of the list stands for
  no more than the order in which the keys were first written.
* An array method called on a `participants` value that is not an array is a
  `TypeError`; the calls that can meet one report it as `threw`.
* `new Date()` reads a clock; every operation that stamps a time takes the
  clock reading as an argument.
* A method that mutates `this` takes the store and returns the new store
  together with the value returned to the caller.
-/

namespace EventPlatform

/-! ## Values and records -/

/-- Primitive JavaScript values. -/
inductive Prim where
  | undefined
  | null
  | bool (b : Bool)
  | num (n : Int)
  | str (s : String)
  deriving DecidableEq, Repr

/-- Values held in the properties of a record. -/
inductive Value where
  | prim (p : Prim)
  | date (t : Nat)
  | arr (xs : List Prim)
  | ref (r : Nat)
  deriving DecidableEq, Repr

/-- A record: its own properties, in order. -/
abbrev Obj := List (String × Value)

/-- Property read `o[k]`: the first binding of `k`, `undefined` when absent. -/
def getProp : Obj → String → Value
  | [], _ => .prim .undefined
  | (k', v) :: rest, k => if k' = k then v else getProp rest k

/-- Own-property test: `k in o`. -/
def hasKey (o : Obj) (k : String) : Bool :=
  o.any (fun p => decide (p.1 = k))

/-- Property write `o[k] = v`: replaces the binding of `k` in place, or appends
a new one. -/
def setProp : Obj → String → Value → Obj
  | [], k, v => [(k, v)]
  | (k', v') :: rest, k, v =>
    if k' = k then (k, v) :: rest else (k', v') :: setProp rest k v

/-- Object spread `{...base, ...src}`: every property of `src` is written onto
`base`, in order. -/
def spread (base src : Obj) : Obj :=
  src.foldl (fun acc p => setProp acc p.1 p.2) base

/-- Rest destructuring `const {k, ...rest} = o`: the properties of `o` other
than `k`. -/
def omitKey (o : Obj) (k : String) : Obj :=
  o.filter (fun p => !decide (p.1 = k))

/-- Strict equality `v === p` of a stored value with a primitive. -/
def strictEq (v : Value) (p : Prim) : Bool :=
  decide (v = .prim p)

/-! ## `parseInt` -/

/-- White space skipped by `parseInt` at the start of a string. -/
def isWhiteSpace (c : Char) : Bool :=
  let n := c.toNat
  n = 9 || n = 10 || n = 11 || n = 12 || n = 13 || n = 32 || n = 160 ||
  n = 5760 || (8192 ≤ n && n ≤ 8202) || n = 8232 || n = 8233 || n = 8239 ||
  n = 8287 || n = 12288 || n = 65279

/-- The value of a character as a digit, letters counting from ten. -/
def digitValue (c : Char) : Option Nat :=
  let n := c.toNat
  if 48 ≤ n ∧ n ≤ 57 then some (n - 48)
  else if 97 ≤ n ∧ n ≤ 122 then some (n - 87)
  else if 65 ≤ n ∧ n ≤ 90 then some (n - 55)
  else none

/-- The longest run of digits of the given radix at the start of a string. -/
def takeDigits (radix : Nat) : List Char → List Nat
  | [] => []
  | c :: cs =>
    match digitValue c with
    | some d => if d < radix then d :: takeDigits radix cs else []
    | none => []

/-- The number written by a list of digits. -/
def digitsValue (radix : Nat) (ds : List Nat) : Nat :=
  ds.foldl (fun acc d => acc * radix + d) 0

/-- The bound `2 ^ 53` below which every integer is a Number. -/
def exactBound : Nat := 9007199254740992

/-- The bound `10 ^ 21` from which a Number is written in exponent form. -/
def exponentBound : Nat := 1000000000000000000000

/-- The bound `2 ^ 1024` from which a magnitude is an infinity. -/
def infinityBound : Nat :=
  179769313486231590772930519078902473361797697894230657273430081157732675805500963132708477322407536021120113879871393357658789768814416622492847430639474124377767893424865485276302219601246094119453082952085005768838150682342462881473913110540827237163350510684586298239947245938479716304835356329624224137216

/-- The number of binary digits of a natural number; `fuel` bounds it. -/
def bitLength : Nat → Nat → Nat
  | 0, _ => 0
  | fuel + 1, n => if n = 0 then 0 else bitLength fuel (n / 2) + 1

/-- The Number nearest to a natural number: the number itself below `2 ^ 53`,
and otherwise its 53 leading binary digits, rounded to nearest, ties to even. -/
def roundNat (a : Nat) : Nat :=
  if a < exactBound then a
  else
    let e := bitLength a a - 53
    let q := a / Nat.pow 2 e
    let r := a % Nat.pow 2 e
    let half := Nat.pow 2 (e - 1)
    if r < half then q * Nat.pow 2 e
    else if r = half then (if q % 2 = 0 then q else q + 1) * Nat.pow 2 e
    else (q + 1) * Nat.pow 2 e

/-- The Number value of the integer that a digit string writes; `none` is an
infinity. -/
def toNumber (a : Nat) : Option Nat :=
  if roundNat a < infinityBound then some (roundNat a) else none

/-- The steps of `parseInt(string)` with no radix argument: skip white space,
read a sign, read a `0x` marker, read digits, and take the Number value of
what they write, correctly rounded; `none` is `NaN` or an infinity. -/
def parseIntChars (cs : List Char) : Option Int :=
  let cs1 := cs.dropWhile isWhiteSpace
  let signed : Bool × List Char :=
    match cs1 with
    | c :: rest =>
      if c.toNat = 45 then (true, rest)
      else if c.toNat = 43 then (false, rest)
      else (false, cs1)
    | [] => (false, cs1)
  let based : Nat × List Char :=
    match signed.2 with
    | c :: d :: rest =>
      if c.toNat = 48 ∧ (d.toNat = 120 ∨ d.toNat = 88) then (16, rest)
      else (10, signed.2)
    | _ => (10, signed.2)
  let ds := takeDigits based.1 based.2
  if ds.isEmpty then none
  else
    match toNumber (digitsValue based.1 ds) with
    | none => none
    | some m => some (if signed.1 then -(m : Int) else (m : Int))

/-- The first decimal digit of a natural number; `fuel` bounds the number of
its digits. -/
def leadDigit : Nat → Nat → Nat
  | 0, n => n
  | fuel + 1, n => if n < 10 then n else leadDigit fuel (n / 10)

/-- The digit before the point when a Number of magnitude `a`, at least
`10 ^ 21`, is written in exponent form (`1e+21`): the first digit of the
shortest decimal that rounds to `a`.  That is the first digit of the largest
integer that rounds to `a`, since a decimal of one digit that rounds to `a` is
the shortest there is. -/
def exponentLead (a : Nat) : Nat :=
  let e := bitLength a a - 53
  let q := a / Nat.pow 2 e
  let top :=
    if q % 2 = 0 then a + Nat.pow 2 (e - 1) else a + Nat.pow 2 (e - 1) - 1
  leadDigit top top

/-- The call `parseInt(n)` on a number: the number is first written as a
string.  Below `10 ^ 21` in magnitude the string is the decimal form of `n` and
the result is `n`; from `10 ^ 21` on it is in exponent form and the result is
the digit before the point, with the sign; `Infinity` gives `NaN`. -/
def parseIntNumber (n : Int) : Option Int :=
  if n.natAbs < exponentBound then some n
  else if n.natAbs < infinityBound then
    some (if n < 0 then -(exponentLead n.natAbs : Int) else (exponentLead n.natAbs : Int))
  else none

/-- The call `parseInt(id)` on a primitive: a string is parsed, a number is
written as a string and parsed, and `undefined`, `null`, `true` and `false`
give `NaN`. -/
def parseInt : Prim → Option Int
  | .num n => parseIntNumber n
  | .str s => parseIntChars s.toList
  | _ => none

/-- Strict equality `v === m` where `m` is a number, or `NaN` or an infinity. -/
def eqNumber (v : Value) (m : Option Int) : Bool :=
  match m with
  | some n => strictEq v (.num n)
  | none => false

/-! ## The store -/

/-- A registration record `{id, eventId, userId, registeredAt}`. -/
structure Registration where
  id : Int
  eventId : Prim
  userId : Prim
  registeredAt : Nat
  deriving DecidableEq, Repr

/-- The fields of the `DataStore` class. -/
structure DataStore where
  users : List Obj
  userIdCounter : Int
  events : List Obj
  eventIdCounter : Int
  registrations : List Registration
  registrationIdCounter : Int
  deriving DecidableEq, Repr

/-- Array `findIndex`: the position of the first element satisfying `p`;
`none` is `-1`. -/
def findIndex {α : Type} (p : α → Bool) : List α → Option Nat
  | [] => none
  | x :: xs => if p x then some 0 else (findIndex p xs).map (· + 1)

/-- In-place change of the first element satisfying `p`: the effect of mutating
the object that `find` returned. -/
def modifyFirst {α : Type} (p : α → Bool) (f : α → α) : List α → List α
  | [] => []
  | x :: xs => if p x then f x :: xs else x :: modifyFirst p f xs

namespace DataStore

/-- The `constructor`. -/
def new : DataStore :=
  { users := [], userIdCounter := 1,
    events := [], eventIdCounter := 1,
    registrations := [], registrationIdCounter := 1 }

/-- The method `addUser(user)`. -/
def addUser (s : DataStore) (user : Obj) (now : Nat) : DataStore × Obj :=
  let newUser :=
    setProp (spread [("id", .prim (.num s.userIdCounter))] user)
      "createdAt" (.date now)
  ({ s with users := s.users ++ [newUser],
            userIdCounter := s.userIdCounter + 1 }, newUser)

/-- The method `findUserByEmail(email)`. -/
def findUserByEmail (s : DataStore) (email : Prim) : Option Obj :=
  s.users.find? (fun user => strictEq (getProp user "email") email)

/-- The method `findUserById(id)`. -/
def findUserById (s : DataStore) (id : Prim) : Option Obj :=
  s.users.find? (fun user => strictEq (getProp user "id") id)

/-- The method `getAllUsers()`. -/
def getAllUsers (s : DataStore) : List Obj :=
  s.users.map (fun user => omitKey user "password")

/-- The method `addEvent(event)`; the two clock readings are those of
`createdAt` and `updatedAt`. -/
def addEvent (s : DataStore) (event : Obj) (now1 now2 : Nat) :
    DataStore × Obj :=
  let newEvent :=
    setProp
      (setProp
        (setProp (spread [("id", .prim (.num s.eventIdCounter))] event)
          "participants" (.arr []))
        "createdAt" (.date now1))
      "updatedAt" (.date now2)
  ({ s with events := s.events ++ [newEvent],
            eventIdCounter := s.eventIdCounter + 1 }, newEvent)

/-- The test `event.id === parseInt(id)` used by every event lookup. -/
def idMatches (id : Prim) (event : Obj) : Bool :=
  eqNumber (getProp event "id") (parseInt id)

/-- The method `findEventById(id)`. -/
def findEventById (s : DataStore) (id : Prim) : Option Obj :=
  s.events.find? (idMatches id)

/-- The method `getAllEvents()`. -/
def getAllEvents (s : DataStore) : List Obj :=
  s.events

/-- The record that `updateEvent` writes in place of `old`. -/
def updatedRecord (old updates : Obj) (now : Nat) : Obj :=
  setProp
    (setProp
      (setProp
        (setProp (spread old updates) "id" (getProp old "id"))
        "participants" (getProp old "participants"))
      "createdAt" (getProp old "createdAt"))
    "updatedAt" (.date now)

/-- The method `updateEvent(id, updates)`; `none` is `null`. -/
def updateEvent (s : DataStore) (id : Prim) (updates : Obj) (now : Nat) :
    DataStore × Option Obj :=
  match findIndex (idMatches id) s.events with
  | none => (s, none)
  | some eventIndex =>
    match s.events[eventIndex]? with
    | none => (s, none)
    | some old =>
      let updated := updatedRecord old updates now
      ({ s with events := s.events.set eventIndex updated }, some updated)

/-- The method `deleteEvent(id)`. -/
def deleteEvent (s : DataStore) (id : Prim) : DataStore × Bool :=
  match findIndex (idMatches id) s.events with
  | none => (s, false)
  | some eventIndex =>
    ({ s with
        events := s.events.eraseIdx eventIndex,
        registrations :=
          s.registrations.filter
            (fun reg => !eqNumber (.prim reg.eventId) (parseInt id)) },
      true)

/-- How a call ends: it returns a record, it returns `null`, or it throws a
`TypeError` (the event found has no array under `participants`). -/
inductive Outcome (α : Type) where
  | returned (a : α)
  | null
  | threw
  deriving DecidableEq, Repr

/-- The test `reg.eventId === eventId && reg.userId === userId`. -/
def samePair (eventId userId : Prim) (reg : Registration) : Bool :=
  decide (reg.eventId = eventId) && decide (reg.userId = userId)

/-- The method `addRegistration(eventId, userId)`. -/
def addRegistration (s : DataStore) (eventId userId : Prim) (now : Nat) :
    DataStore × Outcome Registration :=
  match s.registrations.find? (samePair eventId userId) with
  | some _ => (s, .null)
  | none =>
    let registration : Registration :=
      { id := s.registrationIdCounter, eventId := eventId, userId := userId,
        registeredAt := now }
    let s1 : DataStore :=
      { s with registrations := s.registrations ++ [registration],
               registrationIdCounter := s.registrationIdCounter + 1 }
    match s1.findEventById eventId with
    | none => (s1, .returned registration)
    | some event =>
      match getProp event "participants" with
      | .arr ps =>
        if ps.contains userId then (s1, .returned registration)
        else
          ({ s1 with
              events :=
                modifyFirst (idMatches eventId)
                  (fun e => setProp e "participants" (.arr (ps ++ [userId])))
                  s1.events },
            .returned registration)
      | _ => (s1, .threw)

/-- The method `getUserRegistrations(userId)`. -/
def getUserRegistrations (s : DataStore) (userId : Prim) : List Registration :=
  s.registrations.filter (fun reg => decide (reg.userId = userId))

/-- The method `getEventRegistrations(eventId)`. -/
def getEventRegistrations (s : DataStore) (eventId : Prim) :
    List Registration :=
  s.registrations.filter (fun reg => decide (reg.eventId = eventId))

/-- The method `isUserRegisteredForEvent(eventId, userId)`. -/
def isUserRegisteredForEvent (s : DataStore) (eventId userId : Prim) : Bool :=
  s.registrations.any (samePair eventId userId)

/-- The record `{...event, participantDetails}` returned by
`getEventWithParticipants`: `participantDetails` is what the key of that name
is bound to, a list of public user records, and `event` holds the other
properties, copied from the event. -/
structure EventWithParticipants where
  event : Obj
  participantDetails : List Obj
  deriving DecidableEq, Repr

/-- The method `getEventWithParticipants(eventId)`. -/
def getEventWithParticipants (s : DataStore) (eventId : Prim) :
    Outcome EventWithParticipants :=
  match s.findEventById eventId with
  | none => .null
  | some event =>
    match getProp event "participants" with
    | .arr ps =>
      let participants : List (Option Obj) :=
        ps.map (fun userId =>
          match s.findUserById userId with
          | some user => some (omitKey user "password")
          | none => none)
      .returned
        { event := omitKey event "participantDetails",
          participantDetails := participants.filterMap id }
    | _ => .threw

end DataStore

/-! ## Runs of the store -/

/-- A call of one of the mutating methods, with the clock readings it sees. -/
inductive Op where
  | addUser (user : Obj) (now : Nat)
  | addEvent (event : Obj) (now1 now2 : Nat)
  | updateEvent (id : Prim) (updates : Obj) (now : Nat)
  | deleteEvent (id : Prim)
  | addRegistration (eventId userId : Prim) (now : Nat)
  deriving DecidableEq, Repr

/-- The store after one call. -/
def step (s : DataStore) : Op → DataStore
  | .addUser user now => (s.addUser user now).1
  | .addEvent event now1 now2 => (s.addEvent event now1 now2).1
  | .updateEvent id updates now => (s.updateEvent id updates now).1
  | .deleteEvent id => (s.deleteEvent id).1
  | .addRegistration eventId userId now =>
    (s.addRegistration eventId userId now).1

/-- The store after a sequence of calls. -/
def run (s : DataStore) (ops : List Op) : DataStore :=
  ops.foldl step s

/-- A store is reachable when some sequence of calls on a freshly constructed
store produces it. -/
def Reachable (s : DataStore) : Prop :=
  ∃ ops : List Op, run DataStore.new ops = s

/-- The records returned by a sequence of `addUser` calls, each given as the
field map and the clock reading. -/
def addUserResults (s : DataStore) : List (Obj × Nat) → List Obj
  | [] => []
  | call :: rest =>
    (s.addUser call.1 call.2).2 :: addUserResults (s.addUser call.1 call.2).1 rest

/-- The registration record that `addRegistration` builds. -/
def newRegistration (s : DataStore) (eventId userId : Prim) (now : Nat) :
    Registration :=
  { id := s.registrationIdCounter, eventId := eventId, userId := userId,
    registeredAt := now }

/-- The store once `addRegistration` has pushed its record and advanced the
counter. -/
def withRegistration (s : DataStore) (eventId userId : Prim) (now : Nat) :
    DataStore :=
  { s with
      registrations := s.registrations ++ [newRegistration s eventId userId now],
      registrationIdCounter := s.registrationIdCounter + 1 }

/-- The participants of an event record; empty when the record has no array
under `participants`. -/
def participantsOf (event : Obj) : List Prim :=
  match getProp event "participants" with
  | .arr ps => ps
  | _ => []

/-- Every event holds an array without repetition under `participants`. -/
def ParticipantsOk (s : DataStore) : Prop :=
  ∀ ev ∈ s.events, ∃ ps, getProp ev "participants" = .arr ps ∧ ps.Nodup

/-- No two registrations in the list have the same `(eventId, userId)`. -/
def UniquePairs (s : DataStore) : Prop :=
  s.registrations.Pairwise
    (fun a b => ¬ (a.eventId = b.eventId ∧ a.userId = b.userId))

/-- The id and the participants of an event record. -/
def view (event : Obj) : Value × Value :=
  (getProp event "id", getProp event "participants")

/-- Participants and registrations are in sync: a user id is among the
participants of a stored event exactly when a stored registration links it to
the id of that event. -/
def InSync (s : DataStore) : Prop :=
  ∀ e ∈ s.events, ∀ u : Prim,
    u ∈ participantsOf e ↔
      ∃ reg ∈ s.registrations, Value.prim reg.eventId = getProp e "id" ∧ reg.userId = u

/-- A primitive that is an integer. -/
def isNum : Prim → Bool
  | .num _ => true
  | _ => false

/-- Every identifier passed by the call is an integer. -/
def Op.intIds : Op → Bool
  | .addUser _ _ => true
  | .addEvent _ _ _ => true
  | .updateEvent id _ _ => isNum id
  | .deleteEvent id => isNum id
  | .addRegistration eventId userId _ => isNum eventId && isNum userId

/-- A call with integer identifiers in which the field map of `addEvent` has no
`id` key and `addRegistration` names an event id, below `10 ^ 21` in magnitude,
that is below the event id counter of the store: an id that the counter has
handed out, whether its event is still stored or not. -/
def Op.admissible (s : DataStore) : Op → Bool
  | .addUser _ _ => true
  | .addEvent event _ _ => !hasKey event "id"
  | .updateEvent id _ _ => isNum id
  | .deleteEvent id => isNum id
  | .addRegistration eventId userId _ =>
    match eventId with
    | .num n =>
      decide (n.natAbs < exponentBound) && decide (n < s.eventIdCounter) &&
        isNum userId
    | _ => false

/-- Every call of the sequence is admissible in the store it is made on. -/
def admissibleRun (s : DataStore) : List Op → Bool
  | [] => true
  | op :: rest => op.admissible s && admissibleRun (step s op) rest

/-- The invariant behind the agreement of participants and registrations,
stated on the ids and participants of the events (`V`), the registrations and
the event id counter: ids are integers below the counter and pairwise distinct,
every registration names an integer below the counter, participants are arrays,
and the two agree. -/
structure SyncInv (V : List (Value × Value)) (regs : List Registration)
    (c : Int) : Prop where
  ids : ∀ v ∈ V, ∃ n : Int, v.1 = .prim (.num n) ∧ n < c
  distinct : (V.map Prod.fst).Nodup
  refer : ∀ r ∈ regs, ∃ n : Int, r.eventId = .num n ∧ n < c
  arrays : ∀ v ∈ V, ∃ ps, v.2 = .arr ps
  sync : ∀ v ∈ V, ∀ ps, v.2 = .arr ps → ∀ u : Prim,
    u ∈ ps ↔ ∃ r ∈ regs, Value.prim r.eventId = v.1 ∧ r.userId = u

/-- The store of the worked example after `addUser({email: "a@x.com"})`. -/
def exampleStore1 : DataStore :=
  (DataStore.new.addUser [("email", .prim (.str "a@x.com"))] 0).1

/-- The store of the worked example after `addEvent({title: "Conf"})`. -/
def exampleStore2 : DataStore :=
  (exampleStore1.addEvent [("title", .prim (.str "Conf"))] 1 1).1

/-- The store of the worked example after `addRegistration(1, 1)`. -/
def exampleStore3 : DataStore :=
  (exampleStore2.addRegistration (.num 1) (.num 1) 2).1

/-- The store of the worked example after `deleteEvent(1)`. -/
def exampleStore4 : DataStore :=
  (exampleStore3.deleteEvent (.num 1)).1

/-- The ids of the registrations increase along the list and stay below the
registration counter. -/
def RegIdsOk (s : DataStore) : Prop :=
  s.registrations.Pairwise (fun a b => a.id < b.id) ∧
    ∀ reg ∈ s.registrations, reg.id < s.registrationIdCounter

/-- A store in which a registration has been removed by `deleteEvent`. -/
def exampleStore5 : DataStore :=
  run DataStore.new
    [.addEvent [] 0 0, .addRegistration (.num 1) (.num 7) 1,
      .addRegistration (.num 2) (.num 7) 2, .deleteEvent (.num 1),
      .addRegistration (.num 2) (.num 8) 3]

/-- A store holding one event, with id 1, and the registration made for it
under the string id `"1"`. -/
def exampleStore6 : DataStore :=
  run DataStore.new [.addEvent [] 0 0, .addRegistration (.str "1") (.num 7) 1]

/-- The decimal digits of `n`, most significant first; `fuel` bounds their
number. -/
def decimalDigits : Nat → Nat → List Nat
  | 0, _ => []
  | fuel + 1, n =>
    if n < 10 then [n] else decimalDigits fuel (n / 10) ++ [n % 10]

/-- The decimal digits of a natural number as characters. -/
def natChars (n : Nat) : List Char :=
  (decimalDigits (n + 1) n).map Nat.digitChar

/-- The decimal-string form of an integer: its digits, after a minus sign when
it is negative. -/
def decimalString : Int → String
  | .ofNat m => String.mk (natChars m)
  | .negSucc m => String.mk (Char.ofNat 45 :: natChars (m + 1))

/-- Every participant of a stored event is backed by a stored registration
that links it to the id of the event. -/
def Backed (s : DataStore) : Prop :=
  ∀ e ∈ s.events, ∀ u ∈ participantsOf e,
    ∃ reg ∈ s.registrations, Value.prim reg.eventId = getProp e "id" ∧ reg.userId = u

/-- The invariant behind `Backed`, stated on the ids and participants of the
events (`V`) and the registrations: participants are arrays, an event with a
participant has no event of the same id before it in the list, and every
participant is backed by a registration. -/
structure BackedInv (V : List (Value × Value)) (regs : List Registration) :
    Prop where
  arrays : ∀ v ∈ V, ∃ ps, v.2 = .arr ps
  firstOnly : V.Pairwise (fun a b => b.2 ≠ .arr [] → a.1 ≠ b.1)
  backed : ∀ v ∈ V, ∀ ps, v.2 = .arr ps → ∀ u ∈ ps,
    ∃ r ∈ regs, Value.prim r.eventId = v.1 ∧ r.userId = u

/-- A run with integer ids in which two `addEvent` field maps carry an `id`
key, so that stored events share ids. -/
def exampleOps7 : List Op :=
  [.addEvent [("id", .prim (.num 2))] 0 0, .addEvent [] 1 1,
    .addRegistration (.num 2) (.num 7) 2, .addEvent [("id", .prim (.num 2))] 3 3,
    .deleteEvent (.num 2), .addRegistration (.num 2) (.num 8) 4,
    .updateEvent (.num 2) [("participants", .arr [])] 5,
    .addRegistration (.num 9) (.num 8) 6,
    .deleteEvent (.num 9000000000000000000000)]

/-- A store holding event 1 and the registration of user 7 for it. -/
def exampleStore8 : DataStore :=
  run DataStore.new [.addEvent [] 0 0, .addRegistration (.num 1) (.num 7) 1]

/-- A store holding three events, with registrations for each of them. -/
def exampleStore9 : DataStore :=
  run DataStore.new
    [.addEvent [] 0 0, .addEvent [] 1 1, .addEvent [] 2 2,
      .addRegistration (.num 1) (.num 7) 3, .addRegistration (.num 2) (.num 7) 4,
      .addRegistration (.num 2) (.num 8) 5, .addRegistration (.num 3) (.num 7) 6]

/-- Every identifier passed by the call is an integer, and an event id passed
to `addRegistration` is below `10 ^ 21` in magnitude. -/
def Op.plainIds : Op → Bool
  | .addUser _ _ => true
  | .addEvent _ _ _ => true
  | .updateEvent id _ _ => isNum id
  | .deleteEvent id => isNum id
  | .addRegistration eventId userId _ =>
    match eventId with
    | .num n => decide (n.natAbs < exponentBound) && isNum userId
    | _ => false

/-! ## Records: reading after writing -/

theorem getProp_setProp (o : Obj) (k k' : String) (v : Value) :
    getProp (setProp o k v) k' = if k = k' then v else getProp o k' := by
  induction o with
  | nil =>
    by_cases h : k = k' <;> simp [setProp, getProp, h]
  | cons b rest ih =>
    obtain ⟨kb, vb⟩ := b
    by_cases hb : kb = k
    · subst hb
      by_cases h : kb = k' <;> simp [setProp, getProp, h]
    · by_cases h : k = k'
      · subst h
        simp [setProp, getProp, hb, ih]
      · by_cases hb' : kb = k'
        · subst hb'
          simp [setProp, getProp, hb, h]
        · simp [setProp, getProp, hb, hb', h, ih]

theorem getProp_setProp_same (o : Obj) (k : String) (v : Value) :
    getProp (setProp o k v) k = v := by
  simp [getProp_setProp]

theorem getProp_setProp_other (o : Obj) (k k' : String) (v : Value)
    (h : k ≠ k') : getProp (setProp o k v) k' = getProp o k' := by
  simp [getProp_setProp, h]

theorem getProp_spread_of_absent (src base : Obj) (k : String)
    (h : hasKey src k = false) : getProp (spread base src) k = getProp base k := by
  induction src generalizing base with
  | nil => rfl
  | cons b rest ih =>
    obtain ⟨kb, vb⟩ := b
    simp only [hasKey, List.any_cons, Bool.or_eq_false_iff,
      decide_eq_false_iff_not] at h
    have hrest : hasKey rest k = false := h.2
    simp only [spread, List.foldl_cons]
    have := ih (setProp base kb vb) hrest
    simp only [spread] at this
    rw [this, getProp_setProp_other _ _ _ _ h.1]

theorem hasKey_omitKey (o : Obj) (k : String) : hasKey (omitKey o k) k = false := by
  induction o with
  | nil => rfl
  | cons b rest ih =>
    by_cases hb : b.1 = k
    · simpa [omitKey, hb] using ih
    · simp only [omitKey, hasKey] at ih
      simp [omitKey, hasKey, hb, ih]

theorem getProp_omitKey_other (o : Obj) (k k' : String) (h : k ≠ k') :
    getProp (omitKey o k) k' = getProp o k' := by
  induction o with
  | nil => rfl
  | cons b rest ih =>
    obtain ⟨kb, vb⟩ := b
    by_cases hb : kb = k
    · subst hb
      simp only [omitKey] at ih
      simp [omitKey, getProp, h, ih]
    · simp only [omitKey] at ih
      by_cases hb' : kb = k'
      · subst hb'
        simp [omitKey, getProp, hb]
      · simp [omitKey, getProp, hb, hb', ih]

/-! ## Lists: the first element satisfying a test -/

theorem findIndex_split {α : Type} (p : α → Bool) (before after : List α) (e : α)
    (he : p e = true) (hb : ∀ x ∈ before, p x = false) :
    findIndex p (before ++ e :: after) = some before.length := by
  induction before with
  | nil => simp [findIndex, he]
  | cons x xs ih =>
    have hx : p x = false := hb x (List.mem_cons_self _ _)
    have := ih (fun y hy => hb y (List.mem_cons_of_mem _ hy))
    simp [findIndex, hx, this]

theorem findIndex_none {α : Type} (p : α → Bool) (l : List α)
    (h : ∀ x ∈ l, p x = false) : findIndex p l = none := by
  induction l with
  | nil => rfl
  | cons x xs ih =>
    have hx : p x = false := h x (List.mem_cons_self _ _)
    simp [findIndex, hx, ih (fun y hy => h y (List.mem_cons_of_mem _ hy))]

theorem modifyFirst_split {α : Type} (p : α → Bool) (f : α → α)
    (before after : List α) (e : α)
    (he : p e = true) (hb : ∀ x ∈ before, p x = false) :
    modifyFirst p f (before ++ e :: after) = before ++ f e :: after := by
  induction before with
  | nil => simp [modifyFirst, he]
  | cons x xs ih =>
    have hx : p x = false := hb x (List.mem_cons_self _ _)
    simp [modifyFirst, hx, ih (fun y hy => hb y (List.mem_cons_of_mem _ hy))]

theorem eraseIdx_split {α : Type} (before after : List α) (e : α) :
    (before ++ e :: after).eraseIdx before.length = before ++ after := by
  induction before with
  | nil => rfl
  | cons x xs ih => simp [List.eraseIdx, ih]

theorem getElem?_split {α : Type} (before after : List α) (e : α) :
    (before ++ e :: after)[before.length]? = some e := by
  induction before with
  | nil => simp
  | cons x xs ih => simpa using ih

theorem set_split {α : Type} (before after : List α) (e v : α) :
    (before ++ e :: after).set before.length v = before ++ v :: after := by
  induction before with
  | nil => rfl
  | cons x xs ih => simp [List.set, ih]

theorem find_split {α : Type} (p : α → Bool) (l : List α) (e : α)
    (h : l.find? p = some e) :
    ∃ before after, l = before ++ e :: after ∧ p e = true ∧
      ∀ x ∈ before, p x = false := by
  obtain ⟨he, before, after, hl, hb⟩ := List.find?_eq_some.mp h
  refine ⟨before, after, hl, he, fun x hx => ?_⟩
  simpa using hb x hx

theorem find_of_split {α : Type} (p : α → Bool) (before after : List α) (e : α)
    (he : p e = true) (hb : ∀ x ∈ before, p x = false) :
    (before ++ e :: after).find? p = some e := by
  induction before with
  | nil => simp [he]
  | cons x xs ih =>
    have hx : p x = false := hb x (List.mem_cons_self _ _)
    simp only [List.cons_append, List.find?_cons, hx]
    exact ih (fun y hy => hb y (List.mem_cons_of_mem _ hy))

theorem parseInt_num_of_lt (n : Int) (h : n.natAbs < exponentBound) :
    parseInt (.num n) = some n := by
  simp [parseInt, parseIntNumber, h]

theorem idMatches_iff (id : Prim) (e : Obj) :
    DataStore.idMatches id e = true ↔
      ∃ m, parseInt id = some m ∧ getProp e "id" = .prim (.num m) := by
  cases h : parseInt id with
  | none => simp [DataStore.idMatches, eqNumber, h]
  | some m => simp [DataStore.idMatches, eqNumber, strictEq, h]

theorem idMatches_num (n : Int) (e : Obj) (h : n.natAbs < exponentBound) :
    DataStore.idMatches (.num n) e = true ↔ getProp e "id" = .prim (.num n) := by
  rw [idMatches_iff, parseInt_num_of_lt n h]
  simp

theorem filter_eventId_parsed (regs : List Registration) (id : Prim) (m : Int)
    (h : parseInt id = some m) :
    regs.filter (fun reg => !eqNumber (.prim reg.eventId) (parseInt id))
      = regs.filter (fun reg => decide (reg.eventId ≠ .num m)) := by
  apply List.filter_congr
  intro reg _
  simp [eqNumber, strictEq, h]

/-! ## `addUser`: the ids handed out -/

theorem addUser_id_of_no_id_key (s : DataStore) (user : Obj) (now : Nat)
    (h : hasKey user "id" = false) :
    getProp (s.addUser user now).2 "id" = .prim (.num s.userIdCounter) := by
  simp only [DataStore.addUser]
  rw [getProp_setProp_other _ _ _ _ (by decide), getProp_spread_of_absent _ _ _ h]
  simp [getProp]

/-- When no field map has an `id` key, the calls of `addUser` return the
successive values of the counter. -/
theorem addUserResults_ids_of_no_id_key (calls : List (Obj × Nat)) (s : DataStore)
    (h : ∀ c ∈ calls, hasKey c.1 "id" = false) (k : Nat) (hk : k < calls.length) :
    ((addUserResults s calls)[k]?).map (fun r => getProp r "id")
      = some (.prim (.num (s.userIdCounter + k))) := by
  induction calls generalizing s k with
  | nil => simp at hk
  | cons c rest ih =>
    cases k with
    | zero =>
      simp [addUserResults, addUser_id_of_no_id_key s c.1 c.2
        (h c (List.mem_cons_self _ _))]
    | succ j =>
      have hj : j < rest.length := by simpa using hk
      have := ih (s.addUser c.1 c.2).1
        (fun d hd => h d (List.mem_cons_of_mem _ hd)) j hj
      simp only [addUserResults, List.getElem?_cons_succ]
      rw [this]
      simp only [DataStore.addUser, Nat.cast_add, Nat.cast_one]
      congr 3
      ring

/-- C1, what the code does: on a freshly constructed store, `addUser` called
with the field map `{id: 99}` returns a record whose id is 99, not 1; the
`id` written from the counter is overwritten by the spread of the caller's
fields. -/
theorem addUser_id_taken_from_fields :
    (addUserResults DataStore.new [([("id", .prim (.num 99))], 0)]).map
        (fun r => getProp r "id") = [.prim (.num 99)] ∧
      (.prim (.num 99) : Value) ≠ .prim (.num 1) := by
  decide

/-! ## `deleteEvent` -/

/-- C2 as stated fails: the store holds event 1 and the registration of user 7
for it; `findEventById(1e21)` finds event 1, because `parseInt(1e21)` is 1, and
`deleteEvent(1e21)` returns true and removes the registration, whose eventId,
1, differs from the id passed. -/
theorem deleteEvent_cascade_by_parsed_id :
    exampleStore8.findEventById (.num 1000000000000000000000)
      = exampleStore8.events.head? ∧
    exampleStore8.events.map (fun e => getProp e "id") = [.prim (.num 1)] ∧
    exampleStore8.registrations.filter
        (fun reg => decide (reg.eventId ≠ .num 1000000000000000000000))
      = [{ id := 1, eventId := .num 1, userId := .num 7, registeredAt := 1 }] ∧
    (exampleStore8.deleteEvent (.num 1000000000000000000000)).2 = true ∧
    (exampleStore8.deleteEvent (.num 1000000000000000000000)).1.registrations = [] := by
  decide

/-- C2, amended: for an integer `n` below `10 ^ 21` in magnitude, when
`findEventById(n)` finds the event `e`, `deleteEvent(n)` returns true; `e`, the
first event with id `n`, is taken out of the events list and the other events
keep their order; the registrations are the former ones whose eventId differs
from `n`, in order; users and counters are as before. -/
theorem deleteEvent_of_found (s : DataStore) (n : Int) (e : Obj)
    (hn : n.natAbs < exponentBound)
    (h : s.findEventById (.num n) = some e) :
    ∃ before after,
      s.events = before ++ e :: after ∧
      (∀ x ∈ before, getProp x "id" ≠ .prim (.num n)) ∧
      s.deleteEvent (.num n) =
        ({ s with
            events := before ++ after,
            registrations :=
              s.registrations.filter (fun reg => decide (reg.eventId ≠ .num n)) },
          true) := by
  obtain ⟨before, after, hl, he, hb⟩ := find_split _ _ _ h
  refine ⟨before, after, hl, fun x hx hid => ?_, ?_⟩
  · have := hb x hx
    rw [(idMatches_num n x hn).mpr hid] at this
    exact Bool.noConfusion this
  · have hidx := findIndex_split (DataStore.idMatches (.num n)) before after e he hb
    simp only [DataStore.deleteEvent, hl, hidx,
      filter_eventId_parsed _ _ n (parseInt_num_of_lt n hn), eraseIdx_split]

theorem deleteEvent_of_found_witness :
    ∃ before after,
      exampleStore9.events = before ++
        [("id", .prim (.num 2)), ("participants", .arr [.num 7, .num 8]),
          ("createdAt", .date 1), ("updatedAt", .date 1)] :: after ∧
      (∀ x ∈ before, getProp x "id" ≠ .prim (.num 2)) ∧
      exampleStore9.deleteEvent (.num 2) =
        ({ exampleStore9 with
            events := before ++ after,
            registrations :=
              [{ id := 1, eventId := .num 1, userId := .num 7, registeredAt := 3 },
                { id := 4, eventId := .num 3, userId := .num 7, registeredAt := 6 }] },
          true) :=
  deleteEvent_of_found exampleStore9 2
    [("id", .prim (.num 2)), ("participants", .arr [.num 7, .num 8]),
      ("createdAt", .date 1), ("updatedAt", .date 1)] (by decide) (by decide)

/-- C3: when no stored event passes the lookup test for `id`, that is, no
stored event has that id, `deleteEvent(id)` returns false and the store
(users, events, registrations and the three counters) is as before. -/
theorem deleteEvent_of_absent (s : DataStore) (id : Prim)
    (h : ∀ e ∈ s.events, DataStore.idMatches id e = false) :
    s.deleteEvent id = (s, false) := by
  simp [DataStore.deleteEvent, findIndex_none _ _ h]

theorem deleteEvent_of_absent_witness :
    (DataStore.new.addEvent [] 0 0).1.deleteEvent (.num 2)
      = ((DataStore.new.addEvent [] 0 0).1, false) :=
  deleteEvent_of_absent (DataStore.new.addEvent [] 0 0).1 (.num 2) (by decide)

/-! ## `updateEvent` -/

theorem updatedRecord_id (old updates : Obj) (now : Nat) :
    getProp (DataStore.updatedRecord old updates now) "id" = getProp old "id" := by
  simp [DataStore.updatedRecord, getProp_setProp]

theorem updatedRecord_participants (old updates : Obj) (now : Nat) :
    getProp (DataStore.updatedRecord old updates now) "participants"
      = getProp old "participants" := by
  simp [DataStore.updatedRecord, getProp_setProp]

theorem updatedRecord_createdAt (old updates : Obj) (now : Nat) :
    getProp (DataStore.updatedRecord old updates now) "createdAt"
      = getProp old "createdAt" := by
  simp [DataStore.updatedRecord, getProp_setProp]

theorem updateEvent_of_split (s : DataStore) (id : Prim) (updates : Obj) (now : Nat)
    (before after : List Obj) (e : Obj) (hl : s.events = before ++ e :: after)
    (he : DataStore.idMatches id e = true)
    (hb : ∀ x ∈ before, DataStore.idMatches id x = false) :
    s.updateEvent id updates now =
      ({ s with events := before ++ DataStore.updatedRecord e updates now :: after },
        some (DataStore.updatedRecord e updates now)) := by
  have hidx := findIndex_split (DataStore.idMatches id) before after e he hb
  simp only [DataStore.updateEvent, hl, hidx, getElem?_split, set_split]

/-- C4: when `findEventById(id)` finds the event `e`, `updateEvent(id, updates)`
returns a record `r` and stores it at the position of `e`, and `r` has the id,
the participants and the createdAt of `e`, whatever `updates` holds. -/
theorem updateEvent_keeps_id_participants_createdAt (s : DataStore) (id : Prim)
    (updates : Obj) (now : Nat) (e : Obj) (h : s.findEventById id = some e) :
    ∃ before after r,
      s.events = before ++ e :: after ∧
      (∀ x ∈ before, DataStore.idMatches id x = false) ∧
      s.updateEvent id updates now =
        ({ s with events := before ++ r :: after }, some r) ∧
      getProp r "id" = getProp e "id" ∧
      getProp r "participants" = getProp e "participants" ∧
      getProp r "createdAt" = getProp e "createdAt" := by
  obtain ⟨before, after, hl, he, hb⟩ := find_split _ _ _ h
  exact ⟨before, after, DataStore.updatedRecord e updates now, hl, hb,
    updateEvent_of_split s id updates now before after e hl he hb,
    updatedRecord_id _ _ _, updatedRecord_participants _ _ _,
    updatedRecord_createdAt _ _ _⟩

theorem updateEvent_keeps_id_participants_createdAt_witness :
    ∃ before after r,
      (DataStore.new.addEvent [] 0 0).1.events
          = before ++ (DataStore.new.addEvent [] 0 0).2 :: after ∧
      (∀ x ∈ before, DataStore.idMatches (.num 1) x = false) ∧
      (DataStore.new.addEvent [] 0 0).1.updateEvent (.num 1)
          [("id", .prim (.num 9)), ("participants", .arr [.num 5]),
            ("createdAt", .date 7)] 3 =
        ({ (DataStore.new.addEvent [] 0 0).1 with events := before ++ r :: after },
          some r) ∧
      getProp r "id" = getProp (DataStore.new.addEvent [] 0 0).2 "id" ∧
      getProp r "participants"
        = getProp (DataStore.new.addEvent [] 0 0).2 "participants" ∧
      getProp r "createdAt"
        = getProp (DataStore.new.addEvent [] 0 0).2 "createdAt" :=
  updateEvent_keeps_id_participants_createdAt (DataStore.new.addEvent [] 0 0).1
    (.num 1)
    [("id", .prim (.num 9)), ("participants", .arr [.num 5]),
      ("createdAt", .date 7)] 3
    (DataStore.new.addEvent [] 0 0).2 (by decide)

/-! ## The shape of each call -/

theorem updateEvent_cases (s : DataStore) (id : Prim) (updates : Obj) (now : Nat) :
    ((∀ e ∈ s.events, DataStore.idMatches id e = false) ∧
        s.updateEvent id updates now = (s, none)) ∨
    ∃ before e after,
      s.events = before ++ e :: after ∧ DataStore.idMatches id e = true ∧
      (∀ x ∈ before, DataStore.idMatches id x = false) ∧
      s.updateEvent id updates now =
        ({ s with events := before ++ DataStore.updatedRecord e updates now :: after },
          some (DataStore.updatedRecord e updates now)) := by
  cases h : s.events.find? (DataStore.idMatches id) with
  | none =>
    left
    have hall : ∀ e ∈ s.events, DataStore.idMatches id e = false := by
      intro e he
      simpa using List.find?_eq_none.mp h e he
    exact ⟨hall, by simp [DataStore.updateEvent, findIndex_none _ _ hall]⟩
  | some e =>
    right
    obtain ⟨before, after, hl, he, hb⟩ := find_split _ _ _ h
    exact ⟨before, e, after, hl, he, hb,
      updateEvent_of_split s id updates now before after e hl he hb⟩

theorem deleteEvent_cases (s : DataStore) (id : Prim) :
    ((∀ e ∈ s.events, DataStore.idMatches id e = false) ∧
        s.deleteEvent id = (s, false)) ∨
    ∃ before e after,
      s.events = before ++ e :: after ∧ DataStore.idMatches id e = true ∧
      (∀ x ∈ before, DataStore.idMatches id x = false) ∧
      s.deleteEvent id =
        ({ s with
            events := before ++ after,
            registrations :=
              s.registrations.filter
                (fun reg => !eqNumber (.prim reg.eventId) (parseInt id)) },
          true) := by
  cases h : s.events.find? (DataStore.idMatches id) with
  | none =>
    left
    have hall : ∀ e ∈ s.events, DataStore.idMatches id e = false := by
      intro e he
      simpa using List.find?_eq_none.mp h e he
    exact ⟨hall, by simp [DataStore.deleteEvent, findIndex_none _ _ hall]⟩
  | some e =>
    right
    obtain ⟨before, after, hl, he, hb⟩ := find_split _ _ _ h
    refine ⟨before, e, after, hl, he, hb, ?_⟩
    have hidx := findIndex_split (DataStore.idMatches id) before after e he hb
    simp only [DataStore.deleteEvent, hl, hidx, eraseIdx_split]

theorem addRegistration_cases (s : DataStore) (eventId userId : Prim) (now : Nat) :
    ((∃ reg ∈ s.registrations, DataStore.samePair eventId userId reg = true) ∧
        s.addRegistration eventId userId now = (s, .null)) ∨
    ((∀ reg ∈ s.registrations, DataStore.samePair eventId userId reg = false) ∧
      ((s.findEventById eventId = none ∧
          s.addRegistration eventId userId now =
            (withRegistration s eventId userId now,
              .returned (newRegistration s eventId userId now))) ∨
        (∃ ev, s.findEventById eventId = some ev ∧
          (∀ ps, getProp ev "participants" ≠ .arr ps) ∧
          s.addRegistration eventId userId now =
            (withRegistration s eventId userId now, .threw)) ∨
        (∃ ev ps, s.findEventById eventId = some ev ∧
          getProp ev "participants" = .arr ps ∧ userId ∈ ps ∧
          s.addRegistration eventId userId now =
            (withRegistration s eventId userId now,
              .returned (newRegistration s eventId userId now))) ∨
        (∃ before ev after ps,
          s.events = before ++ ev :: after ∧
          DataStore.idMatches eventId ev = true ∧
          (∀ x ∈ before, DataStore.idMatches eventId x = false) ∧
          getProp ev "participants" = .arr ps ∧ userId ∉ ps ∧
          s.addRegistration eventId userId now =
            ({ withRegistration s eventId userId now with
                events :=
                  before ++
                    setProp ev "participants" (.arr (ps ++ [userId])) :: after },
              .returned (newRegistration s eventId userId now))))) := by
  cases hreg : s.registrations.find? (DataStore.samePair eventId userId) with
  | some reg =>
    left
    exact ⟨⟨reg, List.mem_of_find?_eq_some hreg, List.find?_some hreg⟩,
      by simp [DataStore.addRegistration, hreg]⟩
  | none =>
    right
    refine ⟨fun reg hr => by simpa using List.find?_eq_none.mp hreg reg hr, ?_⟩
    cases hev : s.events.find? (DataStore.idMatches eventId) with
    | none =>
      left
      exact ⟨hev, by
        simp [DataStore.addRegistration, hreg, DataStore.findEventById, hev,
          withRegistration, newRegistration]⟩
    | some ev =>
      right
      cases hps : getProp ev "participants" with
      | arr ps =>
        right
        by_cases hin : userId ∈ ps
        · left
          exact ⟨ev, ps, hev, hps, hin, by
            simp [DataStore.addRegistration, hreg, DataStore.findEventById, hev,
              hps, hin, withRegistration, newRegistration]⟩
        · right
          obtain ⟨before, after, hl, he, hb⟩ := find_split _ _ _ hev
          refine ⟨before, ev, after, ps, hl, he, hb, hps, hin, ?_⟩
          have hm := modifyFirst_split (DataStore.idMatches eventId)
            (fun e => setProp e "participants" (.arr (ps ++ [userId])))
            before after ev he hb
          simp only [DataStore.addRegistration, hreg, DataStore.findEventById, hev,
            hps, List.contains_eq_any_beq, List.any_eq_true, beq_iff_eq,
            withRegistration, newRegistration]
          rw [if_neg (by simpa using hin), hl, hm]
      | prim q =>
        left
        exact ⟨ev, hev, by simp [hps], by
          simp [DataStore.addRegistration, hreg, DataStore.findEventById, hev,
            hps, withRegistration, newRegistration]⟩
      | date q =>
        left
        exact ⟨ev, hev, by simp [hps], by
          simp [DataStore.addRegistration, hreg, DataStore.findEventById, hev,
            hps, withRegistration, newRegistration]⟩
      | ref q =>
        left
        exact ⟨ev, hev, by simp [hps], by
          simp [DataStore.addRegistration, hreg, DataStore.findEventById, hev,
            hps, withRegistration, newRegistration]⟩

/-- A property of the fresh store that every call preserves holds in every
reachable store. -/
theorem Reachable.induct (P : DataStore → Prop) (h0 : P DataStore.new)
    (hstep : ∀ s op, P s → P (step s op)) : ∀ s, Reachable s → P s := by
  have key : ∀ (ops : List Op) (s : DataStore), P s → P (run s ops) := by
    intro ops
    induction ops with
    | nil => intro s hs; exact hs
    | cons op rest ih => intro s hs; exact ih (step s op) (hstep s op hs)
  rintro s ⟨ops, rfl⟩
  exact key ops _ h0

theorem Reachable.step_closed (s : DataStore) (op : Op) (h : Reachable s) :
    Reachable (step s op) := by
  obtain ⟨ops, rfl⟩ := h
  exact ⟨ops ++ [op], by simp [run, List.foldl_append]⟩

/-! ## Two invariants of the reachable stores -/

theorem addEvent_participants (s : DataStore) (event : Obj) (now1 now2 : Nat) :
    getProp (s.addEvent event now1 now2).2 "participants" = .arr [] := by
  simp [DataStore.addEvent, getProp_setProp]

theorem participantsOk_step (s : DataStore) (op : Op) (h : ParticipantsOk s) :
    ParticipantsOk (step s op) := by
  cases op with
  | addUser user now => exact h
  | addEvent event now1 now2 =>
    intro ev hev
    have hev' : ev ∈ s.events ++ [(s.addEvent event now1 now2).2] := hev
    rcases List.mem_append.mp hev' with hin | hin
    · exact h ev hin
    · rw [List.mem_singleton.mp hin]
      exact ⟨[], addEvent_participants s event now1 now2, List.nodup_nil⟩
  | updateEvent id updates now =>
    rcases updateEvent_cases s id updates now with ⟨_, heq⟩ | ⟨before, e, after, hl, _, _, heq⟩
    · simpa [step, heq] using h
    · intro ev hev
      simp only [step, heq, List.mem_append, List.mem_cons] at hev
      rcases hev with hin | rfl | hin
      · exact h ev (by simp [hl, hin])
      · rw [updatedRecord_participants]
        exact h e (by simp [hl])
      · exact h ev (by simp [hl, hin])
  | deleteEvent id =>
    rcases deleteEvent_cases s id with ⟨_, heq⟩ | ⟨before, e, after, hl, _, _, heq⟩
    · simpa [step, heq] using h
    · intro ev hev
      simp only [step, heq, List.mem_append] at hev
      rcases hev with hin | hin
      · exact h ev (by simp [hl, hin])
      · exact h ev (by simp [hl, hin])
  | addRegistration eventId userId now =>
    rcases addRegistration_cases s eventId userId now with
      ⟨_, heq⟩ | ⟨_, ⟨_, heq⟩ | ⟨_, _, _, heq⟩ | ⟨_, _, _, _, _, heq⟩ |
        ⟨before, ev, after, ps, hl, _, _, hps, hin, heq⟩⟩
    · simpa [step, heq] using h
    · simpa [step, heq] using h
    · simpa [step, heq] using h
    · simpa [step, heq] using h
    · intro x hx
      simp only [step, heq, List.mem_append, List.mem_cons] at hx
      rcases hx with hx | rfl | hx
      · exact h x (by simp [hl, hx])
      · obtain ⟨ps', hps', hnd⟩ := h ev (by simp [hl])
        have hpe : ps' = ps := by
          rw [hps] at hps'
          exact (Value.arr.inj hps').symm
        subst hpe
        refine ⟨ps' ++ [userId], getProp_setProp_same _ _ _, ?_⟩
        exact List.nodup_append.mpr
          ⟨hnd, List.nodup_singleton _, by
            intro a ha hb
            rw [List.mem_singleton.mp hb] at ha
            exact hin ha⟩
      · exact h x (by simp [hl, hx])

theorem participantsOk_of_reachable (s : DataStore) (h : Reachable s) :
    ParticipantsOk s := by
  refine Reachable.induct ParticipantsOk ?_ participantsOk_step s h
  intro ev hev
  simp [DataStore.new] at hev

theorem uniquePairs_step (s : DataStore) (op : Op) (h : UniquePairs s) :
    UniquePairs (step s op) := by
  cases op with
  | addUser user now => exact h
  | addEvent event now1 now2 => exact h
  | updateEvent id updates now =>
    rcases updateEvent_cases s id updates now with ⟨_, heq⟩ | ⟨_, _, _, _, _, _, heq⟩
    · simpa [step, heq] using h
    · simpa [step, heq, UniquePairs] using h
  | deleteEvent id =>
    rcases deleteEvent_cases s id with ⟨_, heq⟩ | ⟨_, _, _, _, _, _, heq⟩
    · simpa [step, heq] using h
    · simp only [step, heq, UniquePairs]
      exact List.Pairwise.filter _ h
  | addRegistration eventId userId now =>
    have hpush : (∀ reg ∈ s.registrations,
          DataStore.samePair eventId userId reg = false) →
        (s.registrations ++ [newRegistration s eventId userId now]).Pairwise
          (fun a b => ¬ (a.eventId = b.eventId ∧ a.userId = b.userId)) := by
      intro hno
      refine List.pairwise_append.mpr ⟨h, List.pairwise_singleton _ _, ?_⟩
      intro a ha b hb
      rw [List.mem_singleton.mp hb]
      have := hno a ha
      simpa [DataStore.samePair, newRegistration] using this
    rcases addRegistration_cases s eventId userId now with
      ⟨_, heq⟩ | ⟨hno, ⟨_, heq⟩ | ⟨_, _, _, heq⟩ | ⟨_, _, _, _, _, heq⟩ |
        ⟨_, _, _, _, _, _, _, _, _, heq⟩⟩
    · simpa [step, heq] using h
    · simpa [step, heq, UniquePairs, withRegistration] using hpush hno
    · simpa [step, heq, UniquePairs, withRegistration] using hpush hno
    · simpa [step, heq, UniquePairs, withRegistration] using hpush hno
    · simpa [step, heq, UniquePairs, withRegistration] using hpush hno

theorem uniquePairs_of_reachable (s : DataStore) (h : Reachable s) :
    UniquePairs s :=
  Reachable.induct UniquePairs (by simp [UniquePairs, DataStore.new])
    uniquePairs_step s h

theorem filter_length_le_one {α : Type} (R : α → α → Prop) (p : α → Bool)
    (l : List α) (hl : l.Pairwise R)
    (hp : ∀ a b, p a = true → p b = true → ¬ R a b) :
    (l.filter p).length ≤ 1 := by
  induction l with
  | nil => simp
  | cons x xs ih =>
    obtain ⟨hx, hxs⟩ := List.pairwise_cons.mp hl
    by_cases hpx : p x = true
    · have hnone : xs.filter p = [] := by
        apply List.filter_eq_nil_iff.mpr
        intro y hy hpy
        exact hp x y hpx hpy (hx y hy)
      simp [List.filter_cons, hpx, hnone]
    · simpa [List.filter_cons, hpx] using ih hxs

theorem samePair_filter_le_one (s : DataStore) (h : UniquePairs s)
    (eventId userId : Prim) :
    (s.registrations.filter (DataStore.samePair eventId userId)).length ≤ 1 := by
  apply filter_length_le_one _ _ _ h
  intro a b ha hb
  simp only [DataStore.samePair, Bool.and_eq_true, decide_eq_true_eq] at ha hb
  intro hn
  exact hn ⟨ha.1.trans hb.1.symm, ha.2.trans hb.2.symm⟩

theorem samePair_newRegistration (s : DataStore) (eventId userId : Prim) (now : Nat) :
    DataStore.samePair eventId userId (newRegistration s eventId userId now) = true := by
  simp [DataStore.samePair, newRegistration]

/-- After a call of `addRegistration` the pair is registered, and when the
call pushed a record it is the only one of that pair. -/
theorem addRegistration_registers (s : DataStore) (eventId userId : Prim) (now : Nat) :
    (∃ reg ∈ (s.addRegistration eventId userId now).1.registrations,
        DataStore.samePair eventId userId reg = true) ∧
    ((s.addRegistration eventId userId now).1.registrations = s.registrations ∨
      ((s.addRegistration eventId userId now).1.registrations.filter
        (DataStore.samePair eventId userId)).length = 1) := by
  have hpush : (∀ reg ∈ s.registrations,
        DataStore.samePair eventId userId reg = false) →
      ((s.registrations ++ [newRegistration s eventId userId now]).filter
        (DataStore.samePair eventId userId)).length = 1 := by
    intro hno
    have : s.registrations.filter (DataStore.samePair eventId userId) = [] :=
      List.filter_eq_nil_iff.mpr (fun a ha => by simp [hno a ha])
    simp [List.filter_append, this, samePair_newRegistration]
  have hmem : ∃ reg ∈ s.registrations ++ [newRegistration s eventId userId now],
      DataStore.samePair eventId userId reg = true :=
    ⟨_, by simp, samePair_newRegistration s eventId userId now⟩
  rcases addRegistration_cases s eventId userId now with
    ⟨hex, heq⟩ | ⟨hno, ⟨_, heq⟩ | ⟨_, _, _, heq⟩ | ⟨_, _, _, _, _, heq⟩ |
      ⟨_, _, _, _, _, _, _, _, _, heq⟩⟩
  · rw [heq]
    exact ⟨hex, Or.inl rfl⟩
  · rw [heq]
    exact ⟨hmem, Or.inr (hpush hno)⟩
  · rw [heq]
    exact ⟨hmem, Or.inr (hpush hno)⟩
  · rw [heq]
    exact ⟨hmem, Or.inr (hpush hno)⟩
  · rw [heq]
    exact ⟨hmem, Or.inr (hpush hno)⟩

theorem addRegistration_null_of_registered (s : DataStore) (eventId userId : Prim)
    (now : Nat)
    (h : ∃ reg ∈ s.registrations, DataStore.samePair eventId userId reg = true) :
    s.addRegistration eventId userId now = (s, .null) := by
  rcases addRegistration_cases s eventId userId now with ⟨_, heq⟩ | ⟨hno, _⟩
  · exact heq
  · obtain ⟨reg, hr, hp⟩ := h
    rw [hno reg hr] at hp
    exact Bool.noConfusion hp

/-! ## `addRegistration` -/

/-- C5: in a reachable store, after `addRegistration(eventId, userId)` is
called twice in a row, the second call returns `null` and leaves the store as
the first call left it, and that store holds exactly one registration of the
pair. -/
theorem addRegistration_twice (s : DataStore) (h : Reachable s)
    (eventId userId : Prim) (now1 now2 : Nat) :
    (s.addRegistration eventId userId now1).1.addRegistration eventId userId now2
        = ((s.addRegistration eventId userId now1).1, .null) ∧
      ((s.addRegistration eventId userId now1).1.registrations.filter
        (DataStore.samePair eventId userId)).length = 1 := by
  obtain ⟨hmem, hcount⟩ := addRegistration_registers s eventId userId now1
  refine ⟨addRegistration_null_of_registered _ _ _ _ hmem, ?_⟩
  rcases hcount with hsame | hone
  · apply le_antisymm
    · rw [hsame]
      exact samePair_filter_le_one s (uniquePairs_of_reachable s h) eventId userId
    · obtain ⟨reg, hr, hp⟩ := hmem
      exact List.length_pos_of_mem (List.mem_filter.mpr ⟨hr, hp⟩)
  · exact hone

theorem addRegistration_twice_witness :
    ((run DataStore.new [.addEvent [] 0 0]).addRegistration (.num 1) (.num 7) 1).1.addRegistration
          (.num 1) (.num 7) 2
        = (((run DataStore.new [.addEvent [] 0 0]).addRegistration
              (.num 1) (.num 7) 1).1, .null) ∧
      (((run DataStore.new [.addEvent [] 0 0]).addRegistration
          (.num 1) (.num 7) 1).1.registrations.filter
        (DataStore.samePair (.num 1) (.num 7))).length = 1 :=
  addRegistration_twice (run DataStore.new [.addEvent [] 0 0])
    ⟨[.addEvent [] 0 0], rfl⟩ (.num 1) (.num 7) 1 2

/-- C6: in a reachable store no event has a repeated participant; and when
`addRegistration(eventId, userId)` returns a registration while
`findEventById(eventId)` finds the event `ev`, then afterwards the lookup finds
that event, its other properties as before, and `userId` occurs exactly once
among its participants. -/
theorem participants_without_repetition (s : DataStore) (h : Reachable s) :
    (∀ ev ∈ s.events, ∃ ps, getProp ev "participants" = .arr ps ∧ ps.Nodup) ∧
    ∀ (eventId userId : Prim) (now : Nat) (s' : DataStore) (reg : Registration)
      (ev : Obj),
      s.addRegistration eventId userId now = (s', .returned reg) →
      s.findEventById eventId = some ev →
      ∃ ev' ps,
        s'.findEventById eventId = some ev' ∧
        (∀ k, k ≠ "participants" → getProp ev' k = getProp ev k) ∧
        getProp ev' "participants" = .arr ps ∧ ps.count userId = 1 := by
  have hok := participantsOk_of_reachable s h
  refine ⟨hok, ?_⟩
  intro eventId userId now s' reg ev hcall hfind
  rcases addRegistration_cases s eventId userId now with
    ⟨_, heq⟩ | ⟨_, ⟨hnone, _⟩ | ⟨_, _, _, heq⟩ | ⟨ev1, ps, hev1, hps, hin, heq⟩ |
      ⟨before, ev1, after, ps, hl, he, hb, hps, hin, heq⟩⟩
  · rw [heq] at hcall
    cases hcall
  · rw [hnone] at hfind
    cases hfind
  · rw [heq] at hcall
    cases hcall
  · rw [heq] at hcall
    have hs' : s' = withRegistration s eventId userId now := by
      cases hcall
      rfl
    have hev : ev1 = ev := by
      rw [hev1] at hfind
      exact Option.some.inj hfind
    subst hev
    obtain ⟨ps', hps', hnd⟩ := hok ev1 (List.mem_of_find?_eq_some hev1)
    have hpe : ps' = ps := by
      rw [hps] at hps'
      exact (Value.arr.inj hps').symm
    subst hpe
    refine ⟨ev1, ps', ?_, fun _ _ => rfl, hps, List.count_eq_one_of_mem hnd hin⟩
    rw [hs']
    exact hev1
  · rw [heq] at hcall
    have hev : ev1 = ev := by
      have := find_of_split (DataStore.idMatches eventId) before after ev1 he hb
      rw [DataStore.findEventById, hl, this] at hfind
      exact Option.some.inj hfind
    subst hev
    have hs' : s'.events
        = before ++ setProp ev1 "participants" (.arr (ps ++ [userId])) :: after := by
      cases hcall
      rfl
    have hid : DataStore.idMatches eventId
        (setProp ev1 "participants" (.arr (ps ++ [userId]))) = true := by
      simp only [DataStore.idMatches] at he ⊢
      rw [getProp_setProp_other _ _ _ _ (by decide)]
      exact he
    refine ⟨setProp ev1 "participants" (.arr (ps ++ [userId])), ps ++ [userId],
      ?_, ?_, getProp_setProp_same _ _ _, ?_⟩
    · rw [DataStore.findEventById, hs']
      exact find_of_split _ before after _ hid hb
    · intro k hk
      exact getProp_setProp_other _ _ _ _ (Ne.symm hk)
    · rw [List.count_append, List.count_eq_zero_of_not_mem hin]
      simp

theorem participants_without_repetition_witness :
    (∃ ps, getProp (DataStore.new.addEvent [] 0 0).2 "participants" = .arr ps ∧
        ps.Nodup) ∧
    ∃ ev' ps,
      ((run DataStore.new [.addEvent [] 0 0]).addRegistration
          (.num 1) (.num 7) 1).1.findEventById (.num 1) = some ev' ∧
      (∀ k, k ≠ "participants" →
        getProp ev' k = getProp (DataStore.new.addEvent [] 0 0).2 k) ∧
      getProp ev' "participants" = .arr ps ∧ ps.count (.num 7) = 1 :=
  ⟨(participants_without_repetition (run DataStore.new [.addEvent [] 0 0])
      ⟨[.addEvent [] 0 0], rfl⟩).1 (DataStore.new.addEvent [] 0 0).2 (by decide),
    (participants_without_repetition (run DataStore.new [.addEvent [] 0 0])
      ⟨[.addEvent [] 0 0], rfl⟩).2 (.num 1) (.num 7) 1
      ((run DataStore.new [.addEvent [] 0 0]).addRegistration (.num 1) (.num 7) 1).1
      (newRegistration (run DataStore.new [.addEvent [] 0 0]) (.num 1) (.num 7) 1)
      (DataStore.new.addEvent [] 0 0).2 (by decide) (by decide)⟩

/-- C8: in a reachable store no two entries of the registrations list have the
same (eventId, userId), so the list holds at most one registration of each
pair. -/
theorem registrations_at_most_one_per_pair (s : DataStore) (h : Reachable s) :
    s.registrations.Pairwise
        (fun a b => ¬ (a.eventId = b.eventId ∧ a.userId = b.userId)) ∧
    ∀ eventId userId : Prim,
      (s.registrations.filter (DataStore.samePair eventId userId)).length ≤ 1 :=
  ⟨uniquePairs_of_reachable s h,
    samePair_filter_le_one s (uniquePairs_of_reachable s h)⟩

theorem registrations_at_most_one_per_pair_witness :
    (run DataStore.new
        [.addEvent [] 0 0, .addRegistration (.num 1) (.num 7) 1,
          .addRegistration (.num 1) (.num 7) 2,
          .addRegistration (.num 1) (.num 8) 3]).registrations.Pairwise
        (fun a b => ¬ (a.eventId = b.eventId ∧ a.userId = b.userId)) ∧
    ∀ eventId userId : Prim,
      ((run DataStore.new
          [.addEvent [] 0 0, .addRegistration (.num 1) (.num 7) 1,
            .addRegistration (.num 1) (.num 7) 2,
            .addRegistration (.num 1) (.num 8) 3]).registrations.filter
        (DataStore.samePair eventId userId)).length ≤ 1 :=
  registrations_at_most_one_per_pair _ ⟨_, rfl⟩

/-! ## `getAllUsers` -/

theorem hasKey_omitKey_other (o : Obj) (k k' : String) (h : k ≠ k') :
    hasKey (omitKey o k) k' = hasKey o k' := by
  induction o with
  | nil => rfl
  | cons b rest ih =>
    obtain ⟨kb, vb⟩ := b
    simp only [omitKey, hasKey] at ih
    by_cases hb : kb = k
    · subst hb
      simp [omitKey, hasKey, h, ih]
    · simp [omitKey, hasKey, hb, ih]

/-- C9: `getAllUsers()` returns a list as long as the stored users whose i-th
element is the i-th stored user without its `password` key: that key is absent
from every element and every other key is present with its stored value or
absent as in the stored user.  The call is a reading of the store: it returns no
new store, so the stored users keep their passwords. -/
theorem getAllUsers_strips_password (s : DataStore) :
    s.getAllUsers.length = s.users.length ∧
    (∀ i : Nat,
      s.getAllUsers[i]? = (s.users[i]?).map (fun user => omitKey user "password")) ∧
    (∀ r ∈ s.getAllUsers, hasKey r "password" = false) ∧
    ∀ (user : Obj) (k : String), k ≠ "password" →
      getProp (omitKey user "password") k = getProp user k ∧
      hasKey (omitKey user "password") k = hasKey user k := by
  refine ⟨by simp [DataStore.getAllUsers], ?_, ?_, ?_⟩
  · intro i
    simp [DataStore.getAllUsers, List.getElem?_map]
  · intro r hr
    simp only [DataStore.getAllUsers, List.mem_map] at hr
    obtain ⟨user, _, rfl⟩ := hr
    exact hasKey_omitKey user "password"
  · intro user k hk
    exact ⟨getProp_omitKey_other user "password" k (Ne.symm hk),
      hasKey_omitKey_other user "password" k (Ne.symm hk)⟩

/-! ## `getEventWithParticipants` -/

/-- C10: `getEventWithParticipants(eventId)` returns `null` when
`findEventById(eventId)` finds nothing.  When it finds the event `ev`, whose
participants are the array `ps`, it returns a record with the properties of
`ev` and with `participantDetails` the list, in the order of `ps`, of the
records `findUserById(u)` without their password, for those `u` in `ps` that
`findUserById` resolves; its length is the number of such `u`. -/
theorem getEventWithParticipants_result (s : DataStore) (eventId : Prim) :
    (s.findEventById eventId = none →
      s.getEventWithParticipants eventId = .null) ∧
    ∀ (ev : Obj) (ps : List Prim),
      s.findEventById eventId = some ev →
      getProp ev "participants" = .arr ps →
      ∃ r,
        s.getEventWithParticipants eventId = .returned r ∧
        (∀ k, k ≠ "participantDetails" → getProp r.event k = getProp ev k) ∧
        r.participantDetails =
          ps.filterMap (fun u =>
            (s.findUserById u).map (fun user => omitKey user "password")) ∧
        (∀ d ∈ r.participantDetails, hasKey d "password" = false) ∧
        r.participantDetails.length
          = (ps.filter (fun u => (s.findUserById u).isSome)).length := by
  refine ⟨fun h => by simp [DataStore.getEventWithParticipants, h], ?_⟩
  intro ev ps hev hps
  have hdetails :
      (ps.map (fun userId =>
          match s.findUserById userId with
          | some user => some (omitKey user "password")
          | none => none)).filterMap id
        = ps.filterMap (fun u =>
            (s.findUserById u).map (fun user => omitKey user "password")) := by
    rw [List.filterMap_map]
    apply List.filterMap_congr
    intro u _
    cases hu : s.findUserById u <;> simp [hu]
  refine ⟨{ event := omitKey ev "participantDetails",
            participantDetails :=
              ps.filterMap (fun u =>
                (s.findUserById u).map (fun user => omitKey user "password")) },
    by simp only [DataStore.getEventWithParticipants, hev, hps, hdetails], ?_,
    rfl, ?_, ?_⟩
  · intro k hk
    exact getProp_omitKey_other ev "participantDetails" k (Ne.symm hk)
  · intro d hd
    simp only [List.mem_filterMap, Option.map_eq_some'] at hd
    obtain ⟨u, _, user, _, rfl⟩ := hd
    exact hasKey_omitKey user "password"
  · clear hps hdetails
    induction ps with
    | nil => rfl
    | cons u rest ih =>
      cases hu : s.findUserById u <;>
        simp [List.filterMap_cons, List.filter_cons, hu, ih]

theorem getEventWithParticipants_result_witness :
    DataStore.new.getEventWithParticipants (.num 1) = .null ∧
    ∃ r,
      (run DataStore.new
          [.addUser [("password", .prim (.str "pw"))] 0, .addEvent [] 1 1,
            .addRegistration (.num 1) (.num 1) 2,
            .addRegistration (.num 1) (.num 5) 3]).getEventWithParticipants (.num 1)
        = .returned r ∧
      r.participantDetails.length = 1 :=
  ⟨(getEventWithParticipants_result DataStore.new (.num 1)).1 (by decide),
    (fun ⟨r, h1, _, _, _, h5⟩ => ⟨r, h1, h5⟩)
      ((getEventWithParticipants_result
        (run DataStore.new
          [.addUser [("password", .prim (.str "pw"))] 0, .addEvent [] 1 1,
            .addRegistration (.num 1) (.num 1) 2,
            .addRegistration (.num 1) (.num 5) 3]) (.num 1)).2
        [("id", .prim (.num 1)), ("participants", .arr [.num 1, .num 5]),
          ("createdAt", .date 1), ("updatedAt", .date 1)]
        [.num 1, .num 5] (by decide) (by decide))⟩

/-! ## Participants and registrations -/

theorem SyncInv.add_event {V : List (Value × Value)} {regs : List Registration}
    {c : Int} (h : SyncInv V regs c) :
    SyncInv (V ++ [(.prim (.num c), .arr [])]) regs (c + 1) := by
  have hfresh : ∀ r ∈ regs, Value.prim r.eventId ≠ .prim (.num c) := by
    intro r hr heq
    obtain ⟨n, hn, hlt⟩ := h.refer r hr
    rw [hn] at heq
    injection heq with heq
    injection heq with heq
    omega
  constructor
  · intro v hv
    rcases List.mem_append.mp hv with hv | hv
    · obtain ⟨n, hn, hlt⟩ := h.ids v hv
      exact ⟨n, hn, by omega⟩
    · rw [List.mem_singleton.mp hv]
      exact ⟨c, rfl, by omega⟩
  · rw [List.map_append]
    refine List.nodup_append.mpr ⟨h.distinct, by simp, ?_⟩
    intro a ha hb
    have hb' : a = .prim (.num c) := by simpa using hb
    obtain ⟨v, hv, rfl⟩ := List.mem_map.mp ha
    obtain ⟨n, hn, hlt⟩ := h.ids v hv
    rw [hb'] at hn
    injection hn with hn
    injection hn with hn
    omega
  · intro r hr
    obtain ⟨n, hn, hlt⟩ := h.refer r hr
    exact ⟨n, hn, by omega⟩
  · intro v hv
    rcases List.mem_append.mp hv with hv | hv
    · exact h.arrays v hv
    · rw [List.mem_singleton.mp hv]
      exact ⟨[], rfl⟩
  · intro v hv ps hps u
    rcases List.mem_append.mp hv with hv | hv
    · exact h.sync v hv ps hps u
    · rw [List.mem_singleton.mp hv] at hps ⊢
      have hnil : ps = [] := (Value.arr.inj hps).symm
      subst hnil
      constructor
      · intro hu
        cases hu
      · rintro ⟨r, hr, heq, _⟩
        exact absurd heq (hfresh r hr)

theorem SyncInv.not_mid {B A : List (Value × Value)} {a x : Value}
    (hd : ((B ++ (a, x) :: A).map Prod.fst).Nodup) :
    ∀ v ∈ B ++ A, v.1 ≠ a := by
  intro v hv heq
  rw [List.map_append, List.map_cons] at hd
  have := (List.nodup_middle.mp hd)
  rw [List.nodup_cons] at this
  apply this.1
  rw [← List.map_append]
  exact List.mem_map.mpr ⟨v, hv, heq⟩

theorem SyncInv.delete_event {B A : List (Value × Value)} {x : Value} {n : Int}
    {regs : List Registration} {c : Int}
    (h : SyncInv (B ++ (.prim (.num n), x) :: A) regs c) :
    SyncInv (B ++ A) (regs.filter (fun r => decide (r.eventId ≠ .num n))) c := by
  have hsub : ∀ v ∈ B ++ A, v ∈ B ++ (Value.prim (.num n), x) :: A := by
    intro v hv
    rcases List.mem_append.mp hv with hv | hv
    · exact List.mem_append_left _ hv
    · exact List.mem_append_right _ (List.mem_cons_of_mem _ hv)
  have hne := SyncInv.not_mid h.distinct
  constructor
  · intro v hv
    exact h.ids v (hsub v hv)
  · have hd := h.distinct
    rw [List.map_append, List.map_cons] at hd
    rw [List.map_append]
    exact ((List.nodup_cons.mp (List.nodup_middle.mp hd)).2)
  · intro r hr
    exact h.refer r (List.mem_filter.mp hr).1
  · intro v hv
    exact h.arrays v (hsub v hv)
  · intro v hv ps hps u
    rw [h.sync v (hsub v hv) ps hps u]
    constructor
    · rintro ⟨r, hr, heq, hu⟩
      refine ⟨r, List.mem_filter.mpr ⟨hr, ?_⟩, heq, hu⟩
      have : r.eventId ≠ .num n := by
        intro hrn
        rw [hrn] at heq
        exact hne v hv heq.symm
      simpa using this
    · rintro ⟨r, hr, heq, hu⟩
      exact ⟨r, (List.mem_filter.mp hr).1, heq, hu⟩

theorem SyncInv.not_participant {B A : List (Value × Value)} {ps : List Prim}
    {n : Int} {regs : List Registration} {c : Int} {u : Prim}
    (h : SyncInv (B ++ (.prim (.num n), .arr ps) :: A) regs c)
    (hno : ∀ r ∈ regs, ¬ (r.eventId = .num n ∧ r.userId = u)) : u ∉ ps := by
  intro hu
  obtain ⟨r, hr, heq, hru⟩ :=
    (h.sync (.prim (.num n), .arr ps) (by simp) ps rfl u).mp hu
  exact hno r hr ⟨Value.prim.inj heq, hru⟩

theorem SyncInv.add_registration {B A : List (Value × Value)} {ps : List Prim}
    {n : Int} {regs : List Registration} {c : Int} {u : Prim} (reg : Registration)
    (h : SyncInv (B ++ (.prim (.num n), .arr ps) :: A) regs c)
    (hre : reg.eventId = .num n) (hru : reg.userId = u) :
    SyncInv (B ++ (.prim (.num n), .arr (ps ++ [u])) :: A) (regs ++ [reg]) c := by
  have hne := SyncInv.not_mid h.distinct
  have hmem : ∀ v ∈ B ++ (Value.prim (.num n), Value.arr (ps ++ [u])) :: A,
      v ∈ B ++ A ∨ v = (.prim (.num n), .arr (ps ++ [u])) := by
    intro v hv
    rcases List.mem_append.mp hv with hv | hv
    · exact Or.inl (List.mem_append_left _ hv)
    · rcases List.mem_cons.mp hv with hv | hv
      · exact Or.inr hv
      · exact Or.inl (List.mem_append_right _ hv)
  have hsub : ∀ v ∈ B ++ A, v ∈ B ++ (Value.prim (.num n), Value.arr ps) :: A := by
    intro v hv
    rcases List.mem_append.mp hv with hv | hv
    · exact List.mem_append_left _ hv
    · exact List.mem_append_right _ (List.mem_cons_of_mem _ hv)
  constructor
  · intro v hv
    rcases hmem v hv with hv | rfl
    · exact h.ids v (hsub v hv)
    · exact h.ids (.prim (.num n), .arr ps) (by simp)
  · have hd := h.distinct
    simpa [List.map_append] using hd
  · intro r hr
    rcases List.mem_append.mp hr with hr | hr
    · exact h.refer r hr
    · rw [List.mem_singleton.mp hr, hre]
      obtain ⟨m, hm, hlt⟩ := h.ids (.prim (.num n), .arr ps) (by simp)
      injection hm with hm
      injection hm with hm
      exact ⟨n, rfl, by omega⟩
  · intro v hv
    rcases hmem v hv with hv | rfl
    · exact h.arrays v (hsub v hv)
    · exact ⟨ps ++ [u], rfl⟩
  · intro v hv qs hqs w
    rcases hmem v hv with hv | rfl
    · rw [h.sync v (hsub v hv) qs hqs w]
      constructor
      · rintro ⟨r, hr, heq, hw⟩
        exact ⟨r, List.mem_append_left _ hr, heq, hw⟩
      · rintro ⟨r, hr, heq, hw⟩
        rcases List.mem_append.mp hr with hr | hr
        · exact ⟨r, hr, heq, hw⟩
        · exfalso
          rw [List.mem_singleton.mp hr, hre] at heq
          exact hne v hv heq.symm
    · have hq : qs = ps ++ [u] := (Value.arr.inj hqs).symm
      subst hq
      have hold := h.sync (.prim (.num n), .arr ps) (by simp) ps rfl w
      constructor
      · intro hw
        rcases List.mem_append.mp hw with hw | hw
        · obtain ⟨r, hr, heq, hrw⟩ := hold.mp hw
          exact ⟨r, List.mem_append_left _ hr, heq, hrw⟩
        · refine ⟨reg, by simp, by rw [hre], ?_⟩
          rw [hru]
          exact (List.mem_singleton.mp hw).symm
      · rintro ⟨r, hr, heq, hrw⟩
        rcases List.mem_append.mp hr with hr | hr
        · exact List.mem_append_left _ (hold.mpr ⟨r, hr, heq, hrw⟩)
        · rw [List.mem_singleton.mp hr, hru] at hrw
          exact List.mem_append_right _ (by simp [hrw])

theorem SyncInv.add_unmatched {V : List (Value × Value)}
    {regs : List Registration} {c : Int} {n : Int} (reg : Registration)
    (h : SyncInv V regs c) (hre : reg.eventId = .num n) (hlt : n < c)
    (hno : ∀ v ∈ V, v.1 ≠ .prim (.num n)) :
    SyncInv V (regs ++ [reg]) c := by
  refine ⟨h.ids, h.distinct, ?_, h.arrays, ?_⟩
  · intro r hr
    rcases List.mem_append.mp hr with hr | hr
    · exact h.refer r hr
    · rw [List.mem_singleton.mp hr]
      exact ⟨n, hre, hlt⟩
  · intro v hv ps hps u
    rw [h.sync v hv ps hps u]
    constructor
    · rintro ⟨r, hr, heq⟩
      exact ⟨r, List.mem_append_left _ hr, heq⟩
    · rintro ⟨r, hr, heq, hu⟩
      rcases List.mem_append.mp hr with hr | hr
      · exact ⟨r, hr, heq, hu⟩
      · exfalso
        rw [List.mem_singleton.mp hr, hre] at heq
        exact hno v hv heq.symm

theorem addEvent_view (s : DataStore) (event : Obj) (now1 now2 : Nat)
    (h : hasKey event "id" = false) :
    view (s.addEvent event now1 now2).2 = (.prim (.num s.eventIdCounter), .arr []) := by
  have hid : getProp (s.addEvent event now1 now2).2 "id"
      = .prim (.num s.eventIdCounter) := by
    simp only [DataStore.addEvent]
    rw [getProp_setProp_other _ _ _ _ (by decide),
      getProp_setProp_other _ _ _ _ (by decide),
      getProp_setProp_other _ _ _ _ (by decide),
      getProp_spread_of_absent _ _ _ h]
    simp [getProp]
  simp only [view, hid, addEvent_participants]

theorem updatedRecord_view (old updates : Obj) (now : Nat) :
    view (DataStore.updatedRecord old updates now) = view old := by
  simp only [view, updatedRecord_id, updatedRecord_participants]

theorem syncInv_step (s : DataStore) (op : Op)
    (h : SyncInv (s.events.map view) s.registrations s.eventIdCounter)
    (ha : op.admissible s = true) :
    SyncInv ((step s op).events.map view) (step s op).registrations
      (step s op).eventIdCounter := by
  cases op with
  | addUser user now => exact h
  | addEvent event now1 now2 =>
    have hkey : hasKey event "id" = false := by simpa [Op.admissible] using ha
    have hev : (step s (.addEvent event now1 now2)).events
        = s.events ++ [(s.addEvent event now1 now2).2] := rfl
    rw [hev, List.map_append, List.map_singleton, addEvent_view s event now1 now2 hkey]
    exact h.add_event
  | updateEvent id updates now =>
    rcases updateEvent_cases s id updates now with
      ⟨_, heq⟩ | ⟨before, e, after, hl, _, _, heq⟩
    · simpa [step, heq] using h
    · simp only [step, heq, List.map_append, List.map_cons, updatedRecord_view]
      simpa [hl] using h
  | deleteEvent id =>
    rcases deleteEvent_cases s id with
      ⟨_, heq⟩ | ⟨before, e, after, hl, he, _, heq⟩
    · simpa [step, heq] using h
    · obtain ⟨m, hm, hid⟩ := (idMatches_iff id e).mp he
      simp only [step, heq, filter_eventId_parsed _ _ m hm, List.map_append]
      rw [hl, List.map_append, List.map_cons] at h
      have hv : view e = (.prim (.num m), getProp e "participants") := by
        simp only [view, hid]
      rw [hv] at h
      exact h.delete_event
  | addRegistration eventId userId now =>
    cases eventId with
    | num n =>
      simp only [Op.admissible, Bool.and_eq_true, decide_eq_true_eq] at ha
      obtain ⟨⟨hn, hlt⟩, _⟩ := ha
      rcases addRegistration_cases s (.num n) userId now with
        ⟨_, heq⟩ | ⟨hno, ⟨hnone, heq⟩ | ⟨ev, hev, hnot, _⟩ | ⟨ev, ps, hev, hps, hin, _⟩ |
          ⟨before, ev, after, ps, hl, he, _, hps, _, heq⟩⟩
      · simpa [step, heq] using h
      · simp only [step, heq, withRegistration]
        refine h.add_unmatched (newRegistration s (.num n) userId now) rfl hlt ?_
        intro v hv hvn
        obtain ⟨x, hx, rfl⟩ := List.mem_map.mp hv
        have hfalse := List.find?_eq_none.mp hnone x hx
        exact hfalse ((idMatches_num n x hn).mpr hvn)
      · exfalso
        have hmem : ev ∈ s.events := List.mem_of_find?_eq_some hev
        obtain ⟨ps, hps⟩ := h.arrays (view ev) (List.mem_map_of_mem _ hmem)
        exact hnot ps hps
      · exfalso
        obtain ⟨before, after, hl, he, _⟩ := find_split _ _ _ hev
        have hid : getProp ev "id" = .prim (.num n) := (idMatches_num n ev hn).mp he
        rw [hl, List.map_append, List.map_cons] at h
        have hv : view ev = (.prim (.num n), .arr ps) := by
          simp only [view, hid, hps]
        rw [hv] at h
        refine SyncInv.not_participant h ?_ hin
        intro r hr hpair
        have := hno r hr
        simp [DataStore.samePair, hpair.1, hpair.2] at this
      · have hid : getProp ev "id" = .prim (.num n) := (idMatches_num n ev hn).mp he
        rw [hl, List.map_append, List.map_cons] at h
        have hv : view ev = (.prim (.num n), .arr ps) := by
          simp only [view, hid, hps]
        have hv' : view (setProp ev "participants" (.arr (ps ++ [userId])))
            = (.prim (.num n), .arr (ps ++ [userId])) := by
          simp only [view, getProp_setProp_same]
          rw [getProp_setProp_other _ _ _ _ (by decide), hid]
        rw [hv] at h
        simp only [step, heq, withRegistration, List.map_append, List.map_cons, hv']
        exact h.add_registration (newRegistration s (.num n) userId now) rfl rfl
    | undefined => simp [Op.admissible] at ha
    | null => simp [Op.admissible] at ha
    | bool b => simp [Op.admissible] at ha
    | str t => simp [Op.admissible] at ha

theorem syncInv_run (ops : List Op) (s : DataStore)
    (h : SyncInv (s.events.map view) s.registrations s.eventIdCounter)
    (ha : admissibleRun s ops = true) :
    SyncInv ((run s ops).events.map view) (run s ops).registrations
      (run s ops).eventIdCounter := by
  induction ops generalizing s with
  | nil => exact h
  | cons op rest ih =>
    simp only [admissibleRun, Bool.and_eq_true] at ha
    exact ih (step s op) (syncInv_step s op h ha.1) ha.2

theorem syncInv_new :
    SyncInv (DataStore.new.events.map view) DataStore.new.registrations
      DataStore.new.eventIdCounter := by
  constructor <;> simp [DataStore.new]

theorem inSync_of_syncInv (s : DataStore)
    (h : SyncInv (s.events.map view) s.registrations s.eventIdCounter) :
    InSync s := by
  intro e he u
  have hmem : view e ∈ s.events.map view := List.mem_map_of_mem _ he
  obtain ⟨ps, hps⟩ := h.arrays (view e) hmem
  have hps' : getProp e "participants" = .arr ps := hps
  have hpo : participantsOf e = ps := by simp [participantsOf, hps']
  rw [hpo]
  exact h.sync (view e) hmem ps hps u

/-- C7 as stated fails: the calls `addRegistration(1, 7)` and `addEvent({})`,
all with integer ids, on a fresh store leave event 1 with no participant while
the registration of user 7 for event 1 is stored. -/
theorem sync_broken_by_registration_before_event :
    [Op.addRegistration (.num 1) (.num 7) 0, Op.addEvent [] 1 1].all Op.intIds = true ∧
    ¬ InSync (run DataStore.new
        [Op.addRegistration (.num 1) (.num 7) 0, Op.addEvent [] 1 1]) := by
  refine ⟨by decide, fun h => ?_⟩
  have hiff := h
    [("id", .prim (.num 1)), ("participants", .arr []), ("createdAt", .date 1),
      ("updatedAt", .date 1)] (by decide) (.num 7)
  have hmem := hiff.mpr
    ⟨{ id := 1, eventId := .num 1, userId := .num 7, registeredAt := 0 },
      by decide, by decide, rfl⟩
  revert hmem
  decide

/-- C7, amended: after any sequence of calls on a fresh store, with integer
ids, in which no `addEvent` field map has an `id` key and every
`addRegistration` names an event id, below `10 ^ 21` in magnitude, that is
below the event id counter at that moment (an id already handed out, its event
stored or deleted), participants and registrations are in sync: a user id is
among the participants of a stored event exactly when a stored registration
links it to the id of that event. -/
theorem sync_of_admissible_calls (ops : List Op)
    (h : admissibleRun DataStore.new ops = true) :
    InSync (run DataStore.new ops) :=
  inSync_of_syncInv _ (syncInv_run ops DataStore.new syncInv_new h)

theorem sync_of_admissible_calls_witness :
    InSync (run DataStore.new
      [.addUser [("email", .prim (.str "a@x.com"))] 0, .addEvent [] 1 1,
        .addEvent [("title", .prim (.str "Conf"))] 2 2,
        .addRegistration (.num 2) (.num 1) 3,
        .updateEvent (.num 2) [("id", .prim (.num 1)), ("participants", .arr [])] 4,
        .addRegistration (.num 1) (.num 1) 5,
        .deleteEvent (.num 1000000000000000000000),
        .addRegistration (.num 1) (.num 4) 6,
        .addRegistration (.num 2) (.num 4) 7, .addEvent [] 8 8]) :=
  sync_of_admissible_calls _ (by decide)

/-! ## `addRegistration` when no event is found -/

theorem not_registered_iff (s : DataStore) (eventId userId : Prim) :
    s.isUserRegisteredForEvent eventId userId = false ↔
      ∀ reg ∈ s.registrations, DataStore.samePair eventId userId reg = false := by
  simp [DataStore.isUserRegisteredForEvent]

theorem addRegistration_of_no_event (s : DataStore) (eventId userId : Prim) (now : Nat)
    (hreg : s.isUserRegisteredForEvent eventId userId = false)
    (hev : s.findEventById eventId = none) :
    s.addRegistration eventId userId now =
      (withRegistration s eventId userId now,
        .returned (newRegistration s eventId userId now)) := by
  have hno := (not_registered_iff s eventId userId).mp hreg
  rcases addRegistration_cases s eventId userId now with
    ⟨⟨reg, hr, hp⟩, _⟩ | ⟨_, ⟨_, heq⟩ | ⟨_, h, _⟩ | ⟨_, _, h, _⟩ |
      ⟨before, ev, after, _, hl, he, hb, _⟩⟩
  · rw [hno reg hr] at hp
    exact Bool.noConfusion hp
  · exact heq
  · rw [hev] at h
    cases h
  · rw [hev] at h
    cases h
  · have := find_of_split (DataStore.idMatches eventId) before after ev he hb
    rw [DataStore.findEventById, hl, this] at hev
    cases hev

/-- C11 as stated fails: on a fresh store the pair (1, 7) is not registered and
no event has id 1, and `addRegistration(1, 7)` returns the new registration,
not `null`. -/
theorem addRegistration_without_event_not_null :
    DataStore.new.isUserRegisteredForEvent (.num 1) (.num 7) = false ∧
    DataStore.new.findEventById (.num 1) = none ∧
    (DataStore.new.addRegistration (.num 1) (.num 7) 0).2 =
      .returned { id := 1, eventId := .num 1, userId := .num 7, registeredAt := 0 } ∧
    (DataStore.new.addRegistration (.num 1) (.num 7) 0).2 ≠ .null := by
  decide

/-- C11, amended: when the pair is not registered and no stored event has id
`eventId`, `addRegistration(eventId, userId)` returns the new registration
record, whose id is the value of the registration counter before the call. -/
theorem addRegistration_without_event_returns_registration (s : DataStore)
    (eventId userId : Prim) (now : Nat)
    (hreg : s.isUserRegisteredForEvent eventId userId = false)
    (hev : s.findEventById eventId = none) :
    (s.addRegistration eventId userId now).2 =
      .returned
        { id := s.registrationIdCounter, eventId := eventId, userId := userId,
          registeredAt := now } := by
  rw [addRegistration_of_no_event s eventId userId now hreg hev]
  rfl

theorem addRegistration_without_event_returns_registration_witness :
    (DataStore.new.addRegistration (.str "12") (.num 7) 3).2 =
      .returned
        { id := 1, eventId := .str "12", userId := .num 7, registeredAt := 3 } :=
  addRegistration_without_event_returns_registration DataStore.new (.str "12")
    (.num 7) 3 (by decide) (by decide)

/-! ## The worked example -/

/-- C12: on a fresh store, `addUser({email: "a@x.com"})` returns a user with
id 1; `addEvent({title: "Conf"})` returns an event with id 1 and participants
`[]`; `addRegistration(1, 1)` returns a registration with id 1, eventId 1 and
userId 1, after which the participants of event 1 are `[1]`; `deleteEvent(1)`
returns true; and `getEventRegistrations(1)` is then empty. -/
theorem worked_example :
    getProp (DataStore.new.addUser [("email", .prim (.str "a@x.com"))] 0).2 "id"
      = .prim (.num 1) ∧
    getProp (exampleStore1.addEvent [("title", .prim (.str "Conf"))] 1 1).2 "id"
      = .prim (.num 1) ∧
    getProp (exampleStore1.addEvent [("title", .prim (.str "Conf"))] 1 1).2
        "participants" = .arr [] ∧
    (exampleStore2.addRegistration (.num 1) (.num 1) 2).2 =
      .returned { id := 1, eventId := .num 1, userId := .num 1, registeredAt := 2 } ∧
    (exampleStore3.findEventById (.num 1)).map participantsOf = some [.num 1] ∧
    (exampleStore3.deleteEvent (.num 1)).2 = true ∧
    exampleStore4.getEventRegistrations (.num 1) = [] := by
  decide

/-! ## Registration ids -/

theorem regIdsOk_step (s : DataStore) (op : Op) (h : RegIdsOk s) :
    RegIdsOk (step s op) := by
  cases op with
  | addUser user now => exact h
  | addEvent event now1 now2 => exact h
  | updateEvent id updates now =>
    rcases updateEvent_cases s id updates now with ⟨_, heq⟩ | ⟨_, _, _, _, _, _, heq⟩
    · simpa [step, heq] using h
    · simpa [step, heq, RegIdsOk] using h
  | deleteEvent id =>
    rcases deleteEvent_cases s id with ⟨_, heq⟩ | ⟨_, _, _, _, _, _, heq⟩
    · simpa [step, heq] using h
    · simp only [step, heq, RegIdsOk]
      exact ⟨List.Pairwise.filter _ h.1,
        fun reg hr => h.2 reg (List.mem_filter.mp hr).1⟩
  | addRegistration eventId userId now =>
    have hpush : RegIdsOk (withRegistration s eventId userId now) := by
      constructor
      · refine List.pairwise_append.mpr ⟨h.1, List.pairwise_singleton _ _, ?_⟩
        intro a ha b hb
        rw [List.mem_singleton.mp hb]
        exact h.2 a ha
      · intro reg hr
        rcases List.mem_append.mp hr with hr | hr
        · have := h.2 reg hr
          simp only [withRegistration]
          omega
        · rw [List.mem_singleton.mp hr]
          simp only [withRegistration, newRegistration]
          omega
    rcases addRegistration_cases s eventId userId now with
      ⟨_, heq⟩ | ⟨_, ⟨_, heq⟩ | ⟨_, _, _, heq⟩ | ⟨_, _, _, _, _, heq⟩ |
        ⟨_, _, _, _, _, _, _, _, _, heq⟩⟩
    · simpa [step, heq] using h
    · simpa [step, heq] using hpush
    · simpa [step, heq] using hpush
    · simpa [step, heq] using hpush
    · simpa [step, heq, RegIdsOk] using hpush

theorem regIdsOk_of_reachable (s : DataStore) (h : Reachable s) : RegIdsOk s :=
  Reachable.induct RegIdsOk (by simp [RegIdsOk, DataStore.new]) regIdsOk_step s h

theorem addRegistration_returned_eq (s s' : DataStore) (eventId userId : Prim)
    (now : Nat) (reg : Registration)
    (h : s.addRegistration eventId userId now = (s', .returned reg)) :
    reg = newRegistration s eventId userId now := by
  rcases addRegistration_cases s eventId userId now with
    ⟨_, heq⟩ | ⟨_, ⟨_, heq⟩ | ⟨_, _, _, heq⟩ | ⟨_, _, _, _, _, heq⟩ |
      ⟨_, _, _, _, _, _, _, _, _, heq⟩⟩
  all_goals
    rw [heq] at h
    cases h
  all_goals rfl

/-- C15: in a reachable store the registration ids increase strictly along the
list, so they are pairwise distinct, and each is below
`registrationIdCounter`; and a call of `addRegistration` that returns a
registration returns one whose id is the counter before the call. -/
theorem registration_ids_sequential (s : DataStore) (h : Reachable s) :
    s.registrations.Pairwise (fun a b => a.id < b.id) ∧
    (s.registrations.map (fun reg => reg.id)).Nodup ∧
    (∀ reg ∈ s.registrations, reg.id < s.registrationIdCounter) ∧
    ∀ (eventId userId : Prim) (now : Nat) (s' : DataStore) (reg : Registration),
      s.addRegistration eventId userId now = (s', .returned reg) →
      reg.id = s.registrationIdCounter := by
  obtain ⟨hinc, hlt⟩ := regIdsOk_of_reachable s h
  refine ⟨hinc, ?_, hlt, ?_⟩
  · rw [List.Nodup, List.pairwise_map]
    exact hinc.imp (fun hab => ne_of_lt hab)
  · intro eventId userId now s' reg hcall
    rw [addRegistration_returned_eq s s' eventId userId now reg hcall]
    rfl

theorem registration_ids_sequential_witness :
    exampleStore5.registrations.map (fun reg => reg.id) = [2, 3] ∧
    (newRegistration exampleStore5 (.num 5) (.num 5) 9).id = 4 :=
  ⟨by decide,
    (registration_ids_sequential exampleStore5 ⟨_, rfl⟩).2.2.2
      (.num 5) (.num 5) 9 (withRegistration exampleStore5 (.num 5) (.num 5) 9)
      (newRegistration exampleStore5 (.num 5) (.num 5) 9) (by decide)⟩

/-! ## `addRegistration`: the null return and the missing event -/

/-- C16: `addRegistration(eventId, userId)` returns `null` exactly when
`isUserRegisteredForEvent(eventId, userId)` was true before the call; when it
returns `null` the store is as before, the registration counter included; and
when it returns a registration, `isUserRegisteredForEvent(eventId, userId)` is
true afterwards. -/
theorem addRegistration_null_iff_registered (s : DataStore) (eventId userId : Prim)
    (now : Nat) :
    ((s.addRegistration eventId userId now).2 = .null ↔
      s.isUserRegisteredForEvent eventId userId = true) ∧
    ((s.addRegistration eventId userId now).2 = .null →
      (s.addRegistration eventId userId now).1 = s) ∧
    ∀ reg, (s.addRegistration eventId userId now).2 = .returned reg →
      (s.addRegistration eventId userId now).1.isUserRegisteredForEvent
        eventId userId = true := by
  have hafter : (s.addRegistration eventId userId now).1.isUserRegisteredForEvent
      eventId userId = true := by
    obtain ⟨⟨reg, hr, hp⟩, _⟩ := addRegistration_registers s eventId userId now
    simp only [DataStore.isUserRegisteredForEvent, List.any_eq_true]
    exact ⟨reg, hr, hp⟩
  refine ⟨?_, ?_, fun _ _ => hafter⟩
  · rcases addRegistration_cases s eventId userId now with
      ⟨⟨reg, hr, hp⟩, heq⟩ | ⟨hno, ⟨_, heq⟩ | ⟨_, _, _, heq⟩ | ⟨_, _, _, _, _, heq⟩ |
        ⟨_, _, _, _, _, _, _, _, _, heq⟩⟩
    · rw [heq]
      simp only [DataStore.isUserRegisteredForEvent, List.any_eq_true, true_iff]
      exact ⟨reg, hr, hp⟩
    all_goals
      rw [heq]
      have hfalse := (not_registered_iff s eventId userId).mpr hno
      simp [hfalse]
  · intro hnull
    rcases addRegistration_cases s eventId userId now with
      ⟨_, heq⟩ | ⟨_, ⟨_, heq⟩ | ⟨_, _, _, heq⟩ | ⟨_, _, _, _, _, heq⟩ |
        ⟨_, _, _, _, _, _, _, _, _, heq⟩⟩
    · rw [heq]
    all_goals
      rw [heq] at hnull
      cases hnull

theorem addRegistration_null_iff_registered_witness :
    (exampleStore3.addRegistration (.num 1) (.num 1) 9).1 = exampleStore3 ∧
    (exampleStore2.addRegistration (.num 1) (.num 1) 2).1.isUserRegisteredForEvent
      (.num 1) (.num 1) = true :=
  ⟨(addRegistration_null_iff_registered exampleStore3 (.num 1) (.num 1) 9).2.1
      ((addRegistration_null_iff_registered exampleStore3 (.num 1) (.num 1) 9).1.mpr
        (by decide)),
    (addRegistration_null_iff_registered exampleStore2 (.num 1) (.num 1) 2).2.2
      { id := 1, eventId := .num 1, userId := .num 1, registeredAt := 2 }
      (by decide)⟩

/-- C17: when the pair is not registered and no stored event has id `eventId`,
`addRegistration(eventId, userId)` appends the one row
`{id: registrationIdCounter, eventId, userId}` at the end of the registrations
and adds one to the counter; the events, with their participants, the users and
the other counters are as before. -/
theorem addRegistration_without_event_appends_row (s : DataStore)
    (eventId userId : Prim) (now : Nat)
    (hreg : s.isUserRegisteredForEvent eventId userId = false)
    (hev : s.findEventById eventId = none) :
    (s.addRegistration eventId userId now).1 =
        { s with
            registrations :=
              s.registrations ++
                [{ id := s.registrationIdCounter, eventId := eventId,
                   userId := userId, registeredAt := now }],
            registrationIdCounter := s.registrationIdCounter + 1 } ∧
    (s.addRegistration eventId userId now).1.events = s.events := by
  rw [addRegistration_of_no_event s eventId userId now hreg hev]
  exact ⟨rfl, rfl⟩

theorem addRegistration_without_event_appends_row_witness :
    (exampleStore2.addRegistration (.num 4) (.num 1) 7).1 =
        { exampleStore2 with
            registrations :=
              exampleStore2.registrations ++
                [{ id := exampleStore2.registrationIdCounter, eventId := .num 4,
                   userId := .num 1, registeredAt := 7 }],
            registrationIdCounter := exampleStore2.registrationIdCounter + 1 } ∧
    (exampleStore2.addRegistration (.num 4) (.num 1) 7).1.events
      = exampleStore2.events :=
  addRegistration_without_event_appends_row exampleStore2 (.num 4) (.num 1) 7
    (by decide) (by decide)

/-! ## `addEvent`: the ids handed out -/

/-- When no `addEvent` field map has an `id` key (and the other conditions of
an admissible run hold), the ids of the stored events are pairwise distinct. -/
theorem event_ids_distinct_of_admissible (ops : List Op)
    (h : admissibleRun DataStore.new ops = true) :
    ((run DataStore.new ops).events.map (fun e => getProp e "id")).Nodup := by
  have := (syncInv_run ops DataStore.new syncInv_new h).distinct
  simpa [List.map_map, view, Function.comp] using this

/-- C14, what the code does: after `addEvent({})` on a fresh store the event
counter is 2, and `addEvent({id: 1})` then returns a record with id 1, not 2;
the store holds two events with id 1. -/
theorem addEvent_id_taken_from_fields :
    (DataStore.new.addEvent [] 0 0).1.eventIdCounter = 2 ∧
    getProp ((DataStore.new.addEvent [] 0 0).1.addEvent [("id", .prim (.num 1))] 1 1).2
        "id" = .prim (.num 1) ∧
    (run DataStore.new
        [.addEvent [] 0 0, .addEvent [("id", .prim (.num 1))] 1 1]).events.map
        (fun e => getProp e "id") = [.prim (.num 1), .prim (.num 1)] := by
  decide

/-! ## String ids and the cascade of `deleteEvent` -/

/-- C19, what the code does: with event 1 stored, `addRegistration("1", 7)`
adds 7 to the participants of event 1 and stores a registration whose eventId
is the string `"1"`; `deleteEvent("1")` and `deleteEvent(1)` both return true
and remove the event, but keep that registration, so that afterwards
`getEventRegistrations("1")` is not empty and
`isUserRegisteredForEvent("1", 7)` is true. -/
theorem string_id_registration_survives_deleteEvent :
    (exampleStore6.findEventById (.num 1)).map participantsOf = some [.num 7] ∧
    (exampleStore6.deleteEvent (.str "1")).2 = true ∧
    (exampleStore6.deleteEvent (.str "1")).1.events = [] ∧
    (exampleStore6.deleteEvent (.str "1")).1.getEventRegistrations (.str "1") =
      [{ id := 1, eventId := .str "1", userId := .num 7, registeredAt := 1 }] ∧
    (exampleStore6.deleteEvent (.str "1")).1.isUserRegisteredForEvent
      (.str "1") (.num 7) = true ∧
    (exampleStore6.deleteEvent (.num 1)).2 = true ∧
    (exampleStore6.deleteEvent (.num 1)).1.getEventRegistrations (.str "1") =
      [{ id := 1, eventId := .str "1", userId := .num 7, registeredAt := 1 }] ∧
    (exampleStore6.deleteEvent (.num 1)).1.isUserRegisteredForEvent
      (.str "1") (.num 7) = true := by
  decide

/-! ## `updateEvent`: the merge -/

theorem hasKey_eq_false_iff (o : Obj) (k : String) :
    hasKey o k = false ↔ k ∉ o.map Prod.fst := by
  induction o with
  | nil => simp [hasKey]
  | cons b rest ih =>
    simp only [hasKey] at ih
    simp only [hasKey, List.any_cons, Bool.or_eq_false_iff, decide_eq_false_iff_not,
      List.map_cons, List.mem_cons, not_or, ih]
    constructor
    · rintro ⟨h1, h2⟩
      exact ⟨fun h => h1 h.symm, h2⟩
    · rintro ⟨h1, h2⟩
      exact ⟨fun h => h1 h.symm, h2⟩

/-- Reading a key of `{...base, ...src}`: the value bound in `src` when `src`
has the key, the value of `base` otherwise. -/
theorem getProp_spread (src base : Obj) (k : String)
    (hkeys : (src.map Prod.fst).Nodup) :
    getProp (spread base src) k
      = if hasKey src k = true then getProp src k else getProp base k := by
  induction src generalizing base with
  | nil => simp [spread, hasKey]
  | cons b rest ih =>
    obtain ⟨kb, vb⟩ := b
    rw [List.map_cons, List.nodup_cons] at hkeys
    have hrest := ih (setProp base kb vb) hkeys.2
    simp only [spread, List.foldl_cons] at hrest ⊢
    rw [hrest]
    by_cases hk : kb = k
    · subst hk
      have hnot : hasKey rest kb = false := (hasKey_eq_false_iff rest kb).mpr hkeys.1
      have hhas : hasKey ((kb, vb) :: rest) kb = true := by simp [hasKey]
      rw [hnot, hhas, getProp_setProp_same]
      simp [getProp]
    · have hhas : hasKey ((kb, vb) :: rest) k = hasKey rest k := by
        simp [hasKey, hk]
      rw [hhas, getProp_setProp_other _ _ _ _ hk]
      simp [getProp, hk]

theorem updatedRecord_other (old updates : Obj) (now : Nat) (k : String)
    (h1 : k ≠ "id") (h2 : k ≠ "participants") (h3 : k ≠ "createdAt")
    (h4 : k ≠ "updatedAt") :
    getProp (DataStore.updatedRecord old updates now) k
      = getProp (spread old updates) k := by
  simp only [DataStore.updatedRecord]
  rw [getProp_setProp_other _ _ _ _ (Ne.symm h4),
    getProp_setProp_other _ _ _ _ (Ne.symm h3),
    getProp_setProp_other _ _ _ _ (Ne.symm h2),
    getProp_setProp_other _ _ _ _ (Ne.symm h1)]

theorem updatedRecord_updatedAt (old updates : Obj) (now : Nat) :
    getProp (DataStore.updatedRecord old updates now) "updatedAt" = .date now := by
  simp [DataStore.updatedRecord, getProp_setProp]

/-- C18 as stated fails: event 1 of the worked example has the key `updatedAt`,
the empty updates map has not, and `updateEvent(1, {})` at a later time returns
a record whose `updatedAt` differs from the old one. -/
theorem updateEvent_refreshes_updatedAt :
    (exampleStore2.findEventById (.num 1)).map (fun e => hasKey e "updatedAt")
      = some true ∧
    hasKey ([] : Obj) "updatedAt" = false ∧
    (exampleStore2.findEventById (.num 1)).map (fun e => getProp e "updatedAt")
      = some (.date 1) ∧
    (exampleStore2.updateEvent (.num 1) [] 5).2.map (fun r => getProp r "updatedAt")
      = some (.date 5) := by
  decide

/-- C18, amended: when no event has the id, `updateEvent(id, updates)` returns
`null` and the store is as before.  When `findEventById(id)` finds `e`, the call
returns the record `r` stored at the position of `e`; every key of `updates`
other than id, participants, createdAt and updatedAt reads in `r` as in
`updates`; every key not in `updates`, other than updatedAt, reads in `r` as in
`e`; `updatedAt` is the time of the call; and the other events, the users, the
registrations and the counters are as before. -/
theorem updateEvent_merges_updates (s : DataStore) (id : Prim) (updates : Obj)
    (now : Nat) (hkeys : (updates.map Prod.fst).Nodup) :
    (s.findEventById id = none → s.updateEvent id updates now = (s, none)) ∧
    ∀ e, s.findEventById id = some e →
      ∃ before after r,
        s.events = before ++ e :: after ∧
        (∀ x ∈ before, DataStore.idMatches id x = false) ∧
        s.updateEvent id updates now =
          ({ s with events := before ++ r :: after }, some r) ∧
        (∀ k, hasKey updates k = true → k ≠ "id" → k ≠ "participants" →
          k ≠ "createdAt" → k ≠ "updatedAt" → getProp r k = getProp updates k) ∧
        (∀ k, hasKey updates k = false → k ≠ "updatedAt" →
          getProp r k = getProp e k) ∧
        getProp r "updatedAt" = .date now := by
  constructor
  · intro hnone
    rcases updateEvent_cases s id updates now with
      ⟨_, heq⟩ | ⟨before, e, after, hl, he, hb, _⟩
    · exact heq
    · have := find_of_split (DataStore.idMatches id) before after e he hb
      rw [DataStore.findEventById, hl, this] at hnone
      cases hnone
  · intro e hfind
    obtain ⟨before, after, hl, he, hb⟩ := find_split _ _ _ hfind
    refine ⟨before, after, DataStore.updatedRecord e updates now, hl, hb,
      updateEvent_of_split s id updates now before after e hl he hb, ?_, ?_,
      updatedRecord_updatedAt e updates now⟩
    · intro k hk h1 h2 h3 h4
      rw [updatedRecord_other e updates now k h1 h2 h3 h4,
        getProp_spread updates e k hkeys, if_pos hk]
    · intro k hk h4
      by_cases h1 : k = "id"
      · rw [h1]
        exact updatedRecord_id e updates now
      by_cases h2 : k = "participants"
      · rw [h2]
        exact updatedRecord_participants e updates now
      by_cases h3 : k = "createdAt"
      · rw [h3]
        exact updatedRecord_createdAt e updates now
      rw [updatedRecord_other e updates now k h1 h2 h3 h4,
        getProp_spread updates e k hkeys, hk]
      simp

theorem updateEvent_merges_updates_witness :
    DataStore.new.updateEvent (.num 1)
        [("title", .prim (.str "Meetup")), ("id", .prim (.num 9))] 5
      = (DataStore.new, none) ∧
    ∃ before after r,
      exampleStore2.events = before ++
        [("id", .prim (.num 1)), ("title", .prim (.str "Conf")),
          ("participants", .arr []), ("createdAt", .date 1),
          ("updatedAt", .date 1)] :: after ∧
      exampleStore2.updateEvent (.str "1")
          [("title", .prim (.str "Meetup")), ("id", .prim (.num 9))] 5 =
        ({ exampleStore2 with events := before ++ r :: after }, some r) ∧
      getProp r "title" = .prim (.str "Meetup") ∧
      getProp r "createdAt" = .date 1 ∧
      getProp r "updatedAt" = .date 5 :=
  ⟨(updateEvent_merges_updates DataStore.new (.num 1)
      [("title", .prim (.str "Meetup")), ("id", .prim (.num 9))] 5 (by decide)).1
      (by decide),
    (fun ⟨before, after, r, h1, _, h3, h4, h5, h6⟩ =>
      ⟨before, after, r, h1, h3,
        h4 "title" (by decide) (by decide) (by decide) (by decide) (by decide),
        h5 "createdAt" (by decide) (by decide), h6⟩)
      ((updateEvent_merges_updates exampleStore2 (.str "1")
        [("title", .prim (.str "Meetup")), ("id", .prim (.num 9))] 5 (by decide)).2
        [("id", .prim (.num 1)), ("title", .prim (.str "Conf")),
          ("participants", .arr []), ("createdAt", .date 1),
          ("updatedAt", .date 1)] (by decide))⟩

/-! ## `parseInt` on decimal strings -/

theorem digitsValue_append (radix : Nat) (ds : List Nat) (d : Nat) :
    digitsValue radix (ds ++ [d]) = digitsValue radix ds * radix + d := by
  simp [digitsValue, List.foldl_append]

theorem decimalDigits_spec (fuel n : Nat) (h : n < fuel) :
    decimalDigits fuel n ≠ [] ∧ (∀ d ∈ decimalDigits fuel n, d < 10) ∧
      digitsValue 10 (decimalDigits fuel n) = n := by
  induction fuel generalizing n with
  | zero => omega
  | succ fuel ih =>
    by_cases hn : n < 10
    · simp [decimalDigits, hn, digitsValue]
    · obtain ⟨_, hlt, hval⟩ := ih (n / 10) (by omega)
      simp only [decimalDigits, hn, if_false]
      refine ⟨by simp, ?_, ?_⟩
      · intro d hd
        rcases List.mem_append.mp hd with hd | hd
        · exact hlt d hd
        · rw [List.mem_singleton.mp hd]
          omega
      · rw [digitsValue_append, hval]
        omega

theorem digitChar_toNat (d : Nat) (h : d < 10) : (Nat.digitChar d).toNat = 48 + d := by
  interval_cases d <;> rfl

theorem digitValue_digitChar (d : Nat) (h : d < 10) :
    digitValue (Nat.digitChar d) = some d := by
  interval_cases d <;> rfl

theorem isWhiteSpace_digitChar (d : Nat) (h : d < 10) :
    isWhiteSpace (Nat.digitChar d) = false := by
  interval_cases d <;> rfl

theorem takeDigits_digitChars (ds : List Nat) (h : ∀ d ∈ ds, d < 10) :
    takeDigits 10 (ds.map Nat.digitChar) = ds := by
  induction ds with
  | nil => rfl
  | cons d rest ih =>
    have hd : d < 10 := h d (List.mem_cons_self _ _)
    simp [takeDigits, digitValue_digitChar d hd, hd,
      ih (fun x hx => h x (List.mem_cons_of_mem _ hx))]

theorem parseIntChars_unsigned (c : Char) (cs : List Char) (m : Nat)
    (hws : isWhiteSpace c = false) (h45 : c.toNat ≠ 45) (h43 : c.toNat ≠ 43)
    (hx : ∀ d rest, cs = d :: rest → d.toNat ≠ 120 ∧ d.toNat ≠ 88)
    (hne : takeDigits 10 (c :: cs) ≠ [])
    (hm : toNumber (digitsValue 10 (takeDigits 10 (c :: cs))) = some m) :
    parseIntChars (c :: cs) = some (m : Int) := by
  have hdrop : (c :: cs).dropWhile isWhiteSpace = c :: cs := by
    simp [List.dropWhile_cons, hws]
  cases cs with
  | nil =>
    simp only [parseIntChars, hdrop, h45, h43, if_false]
    simp [hne, hm]
  | cons d rest =>
    obtain ⟨h120, h88⟩ := hx d rest rfl
    simp only [parseIntChars, hdrop, h45, h43, if_false, h120, h88, or_self,
      and_false]
    simp [hne, hm]

theorem parseIntChars_minus (c : Char) (cs : List Char) (m : Nat)
    (hx : ∀ d rest, cs = d :: rest → d.toNat ≠ 120 ∧ d.toNat ≠ 88)
    (hne : takeDigits 10 (c :: cs) ≠ [])
    (hm : toNumber (digitsValue 10 (takeDigits 10 (c :: cs))) = some m) :
    parseIntChars (Char.ofNat 45 :: c :: cs) = some (-(m : Int)) := by
  have hdrop : (Char.ofNat 45 :: c :: cs).dropWhile isWhiteSpace
      = Char.ofNat 45 :: c :: cs := by
    have : isWhiteSpace (Char.ofNat 45) = false := by decide
    simp [List.dropWhile_cons, this]
  have hminus : (Char.ofNat 45).toNat = 45 := by decide
  cases cs with
  | nil =>
    simp only [parseIntChars, hdrop, hminus, if_true]
    simp [hne, hm]
  | cons d rest =>
    obtain ⟨h120, h88⟩ := hx d rest rfl
    simp only [parseIntChars, hdrop, hminus, if_true, h120, h88, or_self,
      and_false, if_false]
    simp [hne, hm]

theorem toNumber_of_number (m : Nat) (hrep : roundNat m = m)
    (hlt : m < exponentBound) : toNumber m = some m := by
  have hbound : exponentBound < infinityBound := by decide
  simp only [toNumber, hrep]
  rw [if_pos (Nat.lt_trans hlt hbound)]

theorem natChars_parse (m : Nat) (hrep : roundNat m = m) (hlt : m < exponentBound) :
    parseIntChars (natChars m) = some (m : Int) ∧
      parseIntChars (Char.ofNat 45 :: natChars m) = some (-(m : Int)) := by
  obtain ⟨hne, hlt10, hval⟩ := decimalDigits_spec (m + 1) m (by omega)
  have htake := takeDigits_digitChars (decimalDigits (m + 1) m) hlt10
  simp only [natChars]
  cases hds : decimalDigits (m + 1) m with
  | nil => exact absurd hds hne
  | cons d0 rest =>
    rw [hds] at hlt10 hval htake
    have hd0 : d0 < 10 := hlt10 d0 (List.mem_cons_self _ _)
    have hc := digitChar_toNat d0 hd0
    have hx : ∀ d tail, rest.map Nat.digitChar = d :: tail →
        d.toNat ≠ 120 ∧ d.toNat ≠ 88 := by
      intro d tail hcs
      cases rest with
      | nil => cases hcs
      | cons d1 rest1 =>
        have hd1 : d1 < 10 := hlt10 d1 (by simp)
        have h1 := digitChar_toNat d1 hd1
        simp only [List.map_cons, List.cons.injEq] at hcs
        rw [← hcs.1, h1]
        omega
    have hne' : takeDigits 10
        (Nat.digitChar d0 :: rest.map Nat.digitChar) ≠ [] := by
      rw [← List.map_cons, htake]
      simp
    have hv : toNumber (digitsValue 10
        (takeDigits 10 (Nat.digitChar d0 :: rest.map Nat.digitChar))) = some m := by
      rw [← List.map_cons, htake, hval]
      exact toNumber_of_number m hrep hlt
    constructor
    · rw [List.map_cons]
      exact parseIntChars_unsigned _ _ m (isWhiteSpace_digitChar d0 hd0)
          (by rw [hc]; omega) (by rw [hc]; omega) hx hne' hv
    · rw [List.map_cons]
      exact parseIntChars_minus _ _ m hx hne' hv

theorem parseInt_decimalString (n : Int) (hrep : roundNat n.natAbs = n.natAbs)
    (hlt : n.natAbs < exponentBound) :
    parseInt (.str (decimalString n)) = some n := by
  cases n with
  | ofNat m =>
    simp only [parseInt, decimalString]
    exact (natChars_parse m hrep hlt).1
  | negSucc m =>
    show parseIntChars (Char.ofNat 45 :: natChars (m + 1)) = some (Int.negSucc m)
    rw [(natChars_parse (m + 1) hrep hlt).2]
    rfl

/-! ## `findEventById` -/

/-- C13 as stated fails: the store holds event 1; `findEventById(1e21)` returns
it, because `parseInt(1e21)` reads the `1` of `1e+21`, while `findEventById`
called with the decimal string of that number returns nothing. -/
theorem findEventById_number_and_string_differ :
    exampleStore8.events.map (fun e => getProp e "id") = [.prim (.num 1)] ∧
    exampleStore8.findEventById (.num 1000000000000000000000)
      = exampleStore8.events.head? ∧
    decimalString 1000000000000000000000 = "1000000000000000000000" ∧
    exampleStore8.findEventById (.str (decimalString 1000000000000000000000))
      = none := by
  decide

/-- C13, amended: for every store and every integer Number `n` below `10 ^ 21`
in magnitude, `findEventById` called with the decimal string of `n` returns
what it returns when called with `n`: the first stored event whose id is `n`,
or nothing when no stored event has id `n`. -/
theorem findEventById_decimal_string (s : DataStore) (n : Int)
    (hrep : roundNat n.natAbs = n.natAbs) (hlt : n.natAbs < exponentBound) :
    s.findEventById (.str (decimalString n)) = s.findEventById (.num n) ∧
    s.findEventById (.num n)
      = s.events.find? (fun e => decide (getProp e "id" = .prim (.num n))) := by
  have hstr : DataStore.idMatches (.str (decimalString n))
      = DataStore.idMatches (.num n) := by
    funext e
    simp only [DataStore.idMatches, parseInt_decimalString n hrep hlt,
      parseInt_num_of_lt n hlt]
  have hnum : DataStore.idMatches (.num n)
      = fun e => decide (getProp e "id" = .prim (.num n)) := by
    funext e
    simp [DataStore.idMatches, parseInt_num_of_lt n hlt, eqNumber, strictEq]
  exact ⟨by rw [DataStore.findEventById, hstr, DataStore.findEventById],
    by rw [DataStore.findEventById, hnum]⟩

theorem findEventById_decimal_string_witness :
    (exampleStore9.findEventById (.str (decimalString 2))
        = exampleStore9.findEventById (.num 2) ∧
      exampleStore9.findEventById (.num 2)
        = exampleStore9.events.find?
            (fun e => decide (getProp e "id" = .prim (.num 2)))) ∧
    (exampleStore9.findEventById (.str (decimalString (-3)))
        = exampleStore9.findEventById (.num (-3)) ∧
      exampleStore9.findEventById (.num (-3))
        = exampleStore9.events.find?
            (fun e => decide (getProp e "id" = .prim (.num (-3))))) :=
  ⟨findEventById_decimal_string exampleStore9 2 (by decide) (by decide),
    findEventById_decimal_string exampleStore9 (-3) (by decide) (by decide)⟩

/-! ## Every participant is backed by a registration -/

theorem BackedInv.mono {V : List (Value × Value)} {regs regs' : List Registration}
    (h : BackedInv V regs) (hsub : ∀ r ∈ regs, r ∈ regs') : BackedInv V regs' := by
  refine ⟨h.arrays, h.firstOnly, ?_⟩
  intro v hv ps hps u hu
  obtain ⟨r, hr, heq⟩ := h.backed v hv ps hps u hu
  exact ⟨r, hsub r hr, heq⟩

theorem BackedInv.append_event {V : List (Value × Value)} {regs : List Registration}
    (h : BackedInv V regs) (x : Value) : BackedInv (V ++ [(x, .arr [])]) regs := by
  constructor
  · intro v hv
    rcases List.mem_append.mp hv with hv | hv
    · exact h.arrays v hv
    · rw [List.mem_singleton.mp hv]
      exact ⟨[], rfl⟩
  · refine List.pairwise_append.mpr ⟨h.firstOnly, List.pairwise_singleton _ _, ?_⟩
    intro a _ b hb hne
    rw [List.mem_singleton.mp hb] at hne
    exact absurd rfl hne
  · intro v hv ps hps u hu
    rcases List.mem_append.mp hv with hv | hv
    · exact h.backed v hv ps hps u hu
    · rw [List.mem_singleton.mp hv] at hps
      have hnil : ps = [] := (Value.arr.inj hps).symm
      rw [hnil] at hu
      cases hu

theorem BackedInv.remove_event {B A : List (Value × Value)} {x : Value} {n : Int}
    {regs : List Registration}
    (h : BackedInv (B ++ (.prim (.num n), x) :: A) regs)
    (hB : ∀ v ∈ B, v.1 ≠ .prim (.num n)) :
    BackedInv (B ++ A) (regs.filter (fun r => decide (r.eventId ≠ .num n))) := by
  have hsub : ∀ v ∈ B ++ A, v ∈ B ++ (Value.prim (.num n), x) :: A := by
    intro v hv
    rcases List.mem_append.mp hv with hv | hv
    · exact List.mem_append_left _ hv
    · exact List.mem_append_right _ (List.mem_cons_of_mem _ hv)
  obtain ⟨_, hmid, _⟩ := List.pairwise_append.mp h.firstOnly
  obtain ⟨hA, _⟩ := List.pairwise_cons.mp hmid
  constructor
  · intro v hv
    exact h.arrays v (hsub v hv)
  · exact h.firstOnly.sublist
      (List.Sublist.append (List.Sublist.refl B) (List.sublist_cons_self _ A))
  · intro v hv ps hps u hu
    obtain ⟨r, hr, heq, hru⟩ := h.backed v (hsub v hv) ps hps u hu
    have hvn : v.1 ≠ .prim (.num n) := by
      rcases List.mem_append.mp hv with hv | hv
      · exact hB v hv
      · have hne : v.2 ≠ .arr [] := by
          rw [hps]
          intro hnil
          rw [Value.arr.inj hnil] at hu
          cases hu
        exact fun hvn => hA v hv hne hvn.symm
    refine ⟨r, List.mem_filter.mpr ⟨hr, ?_⟩, heq, hru⟩
    have : r.eventId ≠ .num n := by
      intro hrn
      rw [hrn] at heq
      exact hvn heq.symm
    simpa using this

theorem BackedInv.add_participant {B A : List (Value × Value)} {ps : List Prim}
    {n : Int} {regs : List Registration} {u : Prim} (reg : Registration)
    (h : BackedInv (B ++ (.prim (.num n), .arr ps) :: A) regs)
    (hB : ∀ v ∈ B, v.1 ≠ .prim (.num n))
    (hre : reg.eventId = .num n) (hru : reg.userId = u) :
    BackedInv (B ++ (.prim (.num n), .arr (ps ++ [u])) :: A) (regs ++ [reg]) := by
  obtain ⟨hpB, hmid, hcross⟩ := List.pairwise_append.mp h.firstOnly
  obtain ⟨hA, hpA⟩ := List.pairwise_cons.mp hmid
  constructor
  · intro v hv
    rcases List.mem_append.mp hv with hv | hv
    · exact h.arrays v (List.mem_append_left _ hv)
    · rcases List.mem_cons.mp hv with hv | hv
      · rw [hv]
        exact ⟨ps ++ [u], rfl⟩
      · exact h.arrays v (List.mem_append_right _ (List.mem_cons_of_mem _ hv))
  · refine List.pairwise_append.mpr ⟨hpB, List.pairwise_cons.mpr ⟨?_, hpA⟩, ?_⟩
    · intro b hb hne
      exact hA b hb hne
    · intro a ha b hb hne
      rcases List.mem_cons.mp hb with hb | hb
      · rw [hb]
        exact hB a ha
      · exact hcross a ha b (List.mem_cons_of_mem _ hb) hne
  · intro v hv qs hqs w hw
    have hold : ∀ v' ∈ B ++ (Value.prim (.num n), Value.arr ps) :: A,
        ∀ qs', v'.2 = .arr qs' → ∀ w' ∈ qs',
          ∃ r ∈ regs ++ [reg], Value.prim r.eventId = v'.1 ∧ r.userId = w' := by
      intro v' hv' qs' hqs' w' hw'
      obtain ⟨r, hr, heq⟩ := h.backed v' hv' qs' hqs' w' hw'
      exact ⟨r, List.mem_append_left _ hr, heq⟩
    rcases List.mem_append.mp hv with hv | hv
    · exact hold v (List.mem_append_left _ hv) qs hqs w hw
    · rcases List.mem_cons.mp hv with hv | hv
      · rw [hv] at hqs ⊢
        have hq : qs = ps ++ [u] := (Value.arr.inj hqs).symm
        rw [hq] at hw
        rcases List.mem_append.mp hw with hw | hw
        · exact hold (.prim (.num n), .arr ps) (by simp) ps rfl w hw
        · refine ⟨reg, by simp, by rw [hre], ?_⟩
          rw [hru]
          exact (List.mem_singleton.mp hw).symm
      · exact hold v (List.mem_append_right _ (List.mem_cons_of_mem _ hv)) qs hqs w hw

theorem backedInv_step (s : DataStore) (op : Op)
    (h : BackedInv (s.events.map view) s.registrations)
    (hi : op.plainIds = true) :
    BackedInv ((step s op).events.map view) (step s op).registrations := by
  cases op with
  | addUser user now => exact h
  | addEvent event now1 now2 =>
    have hev : (step s (.addEvent event now1 now2)).events
        = s.events ++ [(s.addEvent event now1 now2).2] := rfl
    have hv : view (s.addEvent event now1 now2).2
        = (getProp (s.addEvent event now1 now2).2 "id", .arr []) := by
      simp only [view, addEvent_participants]
    rw [hev, List.map_append, List.map_singleton, hv]
    exact h.append_event _
  | updateEvent id updates now =>
    rcases updateEvent_cases s id updates now with
      ⟨_, heq⟩ | ⟨before, e, after, hl, _, _, heq⟩
    · simpa [step, heq] using h
    · simp only [step, heq, List.map_append, List.map_cons, updatedRecord_view]
      simpa [hl] using h
  | deleteEvent id =>
    rcases deleteEvent_cases s id with
      ⟨_, heq⟩ | ⟨before, e, after, hl, he, hb, heq⟩
    · simpa [step, heq] using h
    · obtain ⟨m, hm, hid⟩ := (idMatches_iff id e).mp he
      simp only [step, heq, filter_eventId_parsed _ _ m hm, List.map_append]
      rw [hl, List.map_append, List.map_cons] at h
      have hv : view e = (.prim (.num m), getProp e "participants") := by
        simp only [view, hid]
      rw [hv] at h
      refine h.remove_event ?_
      intro v hvB hvn
      obtain ⟨x, hx, rfl⟩ := List.mem_map.mp hvB
      have := hb x hx
      rw [(idMatches_iff id x).mpr ⟨m, hm, hvn⟩] at this
      exact Bool.noConfusion this
  | addRegistration eventId userId now =>
    cases eventId with
    | num n =>
      have hn : n.natAbs < exponentBound := by
        simp only [Op.plainIds, Bool.and_eq_true, decide_eq_true_eq] at hi
        exact hi.1
      have hgrow : BackedInv (s.events.map view)
          (withRegistration s (.num n) userId now).registrations :=
        h.mono (fun r hr => List.mem_append_left _ hr)
      rcases addRegistration_cases s (.num n) userId now with
        ⟨_, heq⟩ | ⟨_, ⟨_, heq⟩ | ⟨_, _, _, heq⟩ | ⟨_, _, _, _, _, heq⟩ |
          ⟨before, ev, after, ps, hl, he, hb, hps, _, heq⟩⟩
      · simpa [step, heq] using h
      · simpa [step, heq] using hgrow
      · simpa [step, heq] using hgrow
      · simpa [step, heq] using hgrow
      · have hid : getProp ev "id" = .prim (.num n) := (idMatches_num n ev hn).mp he
        rw [hl, List.map_append, List.map_cons] at h
        have hv : view ev = (.prim (.num n), .arr ps) := by
          simp only [view, hid, hps]
        have hv' : view (setProp ev "participants" (.arr (ps ++ [userId])))
            = (.prim (.num n), .arr (ps ++ [userId])) := by
          simp only [view, getProp_setProp_same]
          rw [getProp_setProp_other _ _ _ _ (by decide), hid]
        rw [hv] at h
        simp only [step, heq, withRegistration, List.map_append, List.map_cons, hv']
        refine h.add_participant (newRegistration s (.num n) userId now) ?_ rfl rfl
        intro v hvB hvn
        obtain ⟨x, hx, rfl⟩ := List.mem_map.mp hvB
        have := hb x hx
        rw [(idMatches_num n x hn).mpr hvn] at this
        exact Bool.noConfusion this
    | undefined => simp [Op.plainIds] at hi
    | null => simp [Op.plainIds] at hi
    | bool b => simp [Op.plainIds] at hi
    | str t => simp [Op.plainIds] at hi

theorem backedInv_run (ops : List Op) (s : DataStore)
    (h : BackedInv (s.events.map view) s.registrations)
    (hi : ops.all Op.plainIds = true) :
    BackedInv ((run s ops).events.map view) (run s ops).registrations := by
  induction ops generalizing s with
  | nil => exact h
  | cons op rest ih =>
    simp only [List.all_cons, Bool.and_eq_true] at hi
    exact ih (step s op) (backedInv_step s op h hi.1) hi.2

theorem backedInv_new :
    BackedInv (DataStore.new.events.map view) DataStore.new.registrations := by
  constructor <;> simp [DataStore.new]

theorem backed_of_backedInv (s : DataStore)
    (h : BackedInv (s.events.map view) s.registrations) : Backed s := by
  intro e he u hu
  have hmem : view e ∈ s.events.map view := List.mem_map_of_mem _ he
  obtain ⟨ps, hps⟩ := h.arrays (view e) hmem
  have hps' : getProp e "participants" = .arr ps := hps
  have hpo : participantsOf e = ps := by simp [participantsOf, hps']
  rw [hpo] at hu
  exact h.backed (view e) hmem ps hps u hu

/-- C20 as stated fails: the calls `addEvent({})` and `addRegistration(1e21, 7)`,
all with integer ids, on a fresh store put 7 among the participants of event 1,
because `parseInt(1e21)` is 1, while the only registration has eventId 1e21. -/
theorem participant_without_registration :
    [Op.addEvent [] 0 0, Op.addRegistration (.num 1000000000000000000000) (.num 7) 1].all
        Op.intIds = true ∧
    (run DataStore.new
        [Op.addEvent [] 0 0,
          Op.addRegistration (.num 1000000000000000000000) (.num 7) 1]).events.map view
      = [(.prim (.num 1), .arr [.num 7])] ∧
    (run DataStore.new
        [Op.addEvent [] 0 0,
          Op.addRegistration (.num 1000000000000000000000) (.num 7) 1]).registrations
      = [{ id := 1, eventId := .num 1000000000000000000000, userId := .num 7,
           registeredAt := 1 }] ∧
    ¬ Backed (run DataStore.new
        [Op.addEvent [] 0 0,
          Op.addRegistration (.num 1000000000000000000000) (.num 7) 1]) := by
  refine ⟨by decide, by decide, by decide, fun h => ?_⟩
  obtain ⟨reg, hreg, heq, _⟩ := h
    [("id", .prim (.num 1)), ("participants", .arr [.num 7]), ("createdAt", .date 0),
      ("updatedAt", .date 0)] (by decide) (.num 7) (by decide)
  have hregs : (run DataStore.new
      [Op.addEvent [] 0 0,
        Op.addRegistration (.num 1000000000000000000000) (.num 7) 1]).registrations
      = [{ id := 1, eventId := .num 1000000000000000000000, userId := .num 7,
           registeredAt := 1 }] := by decide
  rw [hregs, List.mem_singleton] at hreg
  rw [hreg] at heq
  revert heq
  decide

/-- C20, amended: after any sequence of calls with integer ids on a fresh store
in which the event ids passed to `addRegistration` are below `10 ^ 21` in
magnitude, whatever the field maps (an `addEvent` map may carry its own `id`,
so that stored events may share an id), every participant is backed by a
registration: for every stored event `e` and every `u` among its participants,
a stored registration has eventId `e.id` and userId `u`. -/
theorem participants_backed_by_registrations (ops : List Op)
    (h : ops.all Op.plainIds = true) :
    ∀ e ∈ (run DataStore.new ops).events, ∀ u ∈ participantsOf e,
      ∃ reg ∈ (run DataStore.new ops).registrations,
        Value.prim reg.eventId = getProp e "id" ∧ reg.userId = u :=
  backed_of_backedInv _ (backedInv_run ops DataStore.new backedInv_new h)

theorem participants_backed_by_registrations_witness :
    (run DataStore.new exampleOps7).events.map view =
      [(.prim (.num 2), .arr [.num 8]), (.prim (.num 2), .arr [])] ∧
    ∃ reg ∈ (run DataStore.new exampleOps7).registrations,
      Value.prim reg.eventId = .prim (.num 2) ∧ reg.userId = .num 8 :=
  ⟨by decide,
    participants_backed_by_registrations exampleOps7 (by decide)
      [("id", .prim (.num 2)), ("participants", .arr [.num 8]),
        ("createdAt", .date 1), ("updatedAt", .date 5)]
      (by decide) (.num 8) (by decide)⟩

end EventPlatform
